import Mathlib

/-!
Verification of the PhysioPro report-generation pipeline (`llm.py`).

The pipeline has two components:
* `fetch_rmse_metrics_from_snowflake`: reshapes tabular `(KEYPOINT_NAME, RMSE)`
  rows into a metrics summary (positional RMSE dict plus two named angle RMSEs);
* `generate_physio_report`: builds a prompt, decodes the inference endpoint's
  JSON output, persists it and returns an artifact.

RMSE values are modelled as exact rationals (they are only moved around and
formatted, never computed with). Python dicts are modelled as insertion-ordered
association lists. The warehouse query, the inference call and the blob upload
are external collaborators; they enter the model as explicit inputs
(query result, endpoint output text) and as an effect trace (uploads, prints).
-/

namespace PhysioPro

/-- A row of the warehouse query result: `(KEYPOINT_NAME, RMSE)`. -/
abbrev Row := String × ℚ

instance {ε α : Type} [DecidableEq ε] [DecidableEq α] : DecidableEq (Except ε α) :=
  fun x y =>
    match x, y with
    | .error a, .error b =>
      if h : a = b then isTrue (by rw [h])
      else isFalse (by intro hc; cases hc; exact h rfl)
    | .ok a, .ok b =>
      if h : a = b then isTrue (by rw [h])
      else isFalse (by intro hc; cases hc; exact h rfl)
    | .error _, .ok _ => isFalse (by intro h; cases h)
    | .ok _, .error _ => isFalse (by intro h; cases h)

/-- `leadsList pat l`: `pat` is a prefix of `l` (character lists). -/
def leadsList : List Char → List Char → Bool
  | a :: pat, b :: l => a = b && leadsList pat l
  | [], _ => true
  | _, _ => false

/-- `hasSubList pat text`: `pat` occurs as a contiguous sublist of `text`. -/
def hasSubList (pat : List Char) : List Char → Bool
  | [] => pat.isEmpty
  | c :: t => leadsList pat (c :: t) || hasSubList pat t

/-- Python's substring test `pat in s`. -/
def hasSub (s pat : String) : Bool :=
  hasSubList pat.data s.data

/-- The substring marking a keypoint name as an angle measurement
(`"ANGLE" not in row["KEYPOINT_NAME"]` in the source). -/
def angleMarker : String := "ANGLE"

/-- Python dict insertion on an insertion-ordered association list: an existing
key keeps its position and gets the new value; a new key is appended. -/
def dictInsert : List Row → String → ℚ → List Row
  | [], k, v => [(k, v)]
  | p :: tl, k, v => if p.1 = k then (k, v) :: tl else p :: dictInsert tl k v

/-- Python dict lookup: the value stored at key `k`, if present. -/
def lookupD (m : List Row) (k : String) : Option ℚ :=
  (m.find? (fun p => p.1 = k)).map (fun p => p.2)

/-- The summary built by the metrics fetcher (spec data model `MetricsSummary`;
`positional_rmse` is the source's `"3D_RMSE"` dict in insertion order). -/
structure MetricsSummary where
  positional_rmse : List Row
  knee_angle_rmse : ℚ
  hip_abduction_angle_rmse : ℚ
deriving DecidableEq, Repr

/-- Failure of the fetcher's reshaping step. Python raises `IndexError`
(a subclass of `LookupError`) from `.values[0]` on an empty selection. -/
inductive FetchError where
  | lookupError
deriving DecidableEq, Repr

/-- One step of the dict comprehension at line 23: a row is inserted unless its
keypoint name contains the angle marker. -/
def posStep (m : List Row) (r : Row) : List Row :=
  if hasSub r.1 angleMarker then m else dictInsert m r.1 r.2

/-- The dict comprehension at line 23: fold the rows in table order, inserting
every row whose keypoint name does not contain the angle marker. -/
def positionalOf (df : List Row) : List Row :=
  df.foldl posStep []

/-- The value of the last row (in table order) with keypoint name `a` among the
rows not marked as angles. -/
def lastVal (df : List Row) (a : String) : Option ℚ :=
  ((df.filter fun r => decide (r.1 = a) && !hasSub r.1 angleMarker).map
    (fun r => r.2)).getLast?

/-- `df[df["KEYPOINT_NAME"] == name]["RMSE"].values[0]`: the RMSE of the first
row (in table order) whose keypoint name equals `name` exactly. -/
def firstMatch (df : List Row) (name : String) : Option ℚ :=
  ((df.filter (fun r => r.1 = name)).head?).map (fun r => r.2)

/-- The pure reshaping done by `fetch_rmse_metrics_from_snowflake` on the query
result. Python evaluates the dict literal left to right: the comprehension
never fails, then the `KNEE_ANGLE` lookup, then the `HIP_ABDUCTION_ANGLE`
lookup; an empty selection raises before any summary is returned. -/
def fetch_rmse_metrics_from_snowflake (df : List Row) :
    Except FetchError MetricsSummary :=
  match firstMatch df "KNEE_ANGLE" with
  | none => .error .lookupError
  | some k =>
    match firstMatch df "HIP_ABDUCTION_ANGLE" with
    | none => .error .lookupError
    | some h => .ok ⟨positionalOf df, k, h⟩

/-- Failure of the warehouse query itself (`pd.read_sql` raising). -/
inductive QueryError where
  | queryFailed
deriving DecidableEq, Repr

/-- Error classes on the whole fetch call. -/
inductive FetchRunError where
  | connectivity
  | lookup
deriving DecidableEq, Repr

/-- Outcome of one fetch call: the result and whether `conn.close()` ran
before control returned to the caller. -/
structure FetchRun where
  result : Except FetchRunError MetricsSummary
  connClosed : Bool
deriving Repr

/-- Control flow of `fetch_rmse_metrics_from_snowflake` around its connection:
the connection is opened, `pd.read_sql` runs, and only on its success does the
straight-line code reach `conn.close()` (there is no try/finally); the
reshaping happens after the close. -/
def fetch_run (queryResult : Except QueryError (List Row)) : FetchRun :=
  match queryResult with
  | .error _ => ⟨.error .connectivity, false⟩
  | .ok df =>
    match fetch_rmse_metrics_from_snowflake df with
    | .error _ => ⟨.error .lookup, true⟩
    | .ok s => ⟨.ok s, true⟩

/-! ### JSON values

JSON as handled by Python's `json` module, with one modelling restriction:
numbers are integers. The report schema at lines 87-106 admits only strings,
arrays and objects, so no payload relevant to this program carries a
non-integer number. Lone surrogate escapes (representable in Python strings
but not as Unicode scalar values) are rejected by the modelled parser. -/

mutual

inductive Json where
  | null : Json
  | bool (b : Bool) : Json
  | num (n : Int) : Json
  | str (s : String) : Json
  | arr (xs : JsonArr) : Json
  | obj (xs : JsonObj) : Json

inductive JsonArr where
  | nil : JsonArr
  | cons (hd : Json) (tl : JsonArr) : JsonArr

inductive JsonObj where
  | nil : JsonObj
  | cons (k : String) (v : Json) (tl : JsonObj) : JsonObj

end

/-- The opening-brace character, `U+007B`. -/
def obraceC : Char := Char.ofNat 123

/-- The closing-brace character, `U+007D`. -/
def cbraceC : Char := Char.ofNat 125

/-- Lowercase hexadecimal digit, as produced by Python's `\uXXXX` escapes. -/
def hexDigitChar (n : Nat) : Char :=
  if n < 10 then Char.ofNat (48 + n) else Char.ofNat (87 + n)

/-- Four lowercase hex digits of `n < 0x10000`, most significant first. -/
def toHex4 (n : Nat) : List Char :=
  [hexDigitChar (n / 4096 % 16), hexDigitChar (n / 256 % 16),
    hexDigitChar (n / 16 % 16), hexDigitChar (n % 16)]

/-- Python `json.dumps` escaping of one character under the default
`ensure_ascii=True`: `"` and `\` are backslash-escaped, the five named control
escapes are used, other printable ASCII (0x20-0x7E) is literal, and everything
else becomes `\uXXXX` (a surrogate pair for astral code points). -/
def escChar (c : Char) : List Char :=
  if c = '"' then ['\\', '"']
  else if c = '\\' then ['\\', '\\']
  else if c = '\n' then ['\\', 'n']
  else if c = '\t' then ['\\', 't']
  else if c = '\r' then ['\\', 'r']
  else if c.toNat = 8 then ['\\', 'b']
  else if c.toNat = 12 then ['\\', 'f']
  else if 32 ≤ c.toNat ∧ c.toNat ≤ 126 then [c]
  else if c.toNat < 65536 then '\\' :: 'u' :: toHex4 c.toNat
  else
    ('\\' :: 'u' :: toHex4 (55296 + (c.toNat - 65536) / 1024)) ++
      ('\\' :: 'u' :: toHex4 (56320 + (c.toNat - 65536) % 1024))

/-- The characters of the JSON string literal encoding `s`. -/
def encStr (s : String) : List Char :=
  '"' :: (s.data.map escChar).flatten ++ ['"']

/-- Decimal digits of a positive number, prepended to `acc`. -/
def natCharsCore (n : Nat) (acc : List Char) : List Char :=
  if h : n = 0 then acc
  else natCharsCore (n / 10) (Nat.digitChar (n % 10) :: acc)
termination_by n
decreasing_by exact Nat.div_lt_self (Nat.pos_of_ne_zero h) (by decide)

/-- Decimal rendering of a natural number (Python `str`). -/
def natChars (n : Nat) : List Char :=
  if n = 0 then ['0'] else natCharsCore n []

/-- Decimal rendering of an integer (Python `str`). -/
def intChars : Int → List Char
  | .ofNat m => natChars m
  | .negSucc m => '-' :: natChars (m + 1)

/-- `n` spaces. -/
def spaces (n : Nat) : List Char := List.replicate n ' '

mutual

/-- Python `json.dumps(v, indent=2)` at indentation level `ind`: containers
put every child on its own line indented two further, the closer aligns with
the opener, and the item separator is `","` with key separator `": "`. -/
def dumpsV (ind : Nat) : Json → List Char
  | .str s => encStr s
  | .num n => intChars n
  | .bool b => if b then 't' :: ['r', 'u', 'e'] else 'f' :: ['a', 'l', 's', 'e']
  | .null => 'n' :: ['u', 'l', 'l']
  | .arr .nil => ['[', ']']
  | .arr (.cons x xs) =>
    '[' :: '\n' :: (spaces (ind + 2) ++ dumpsV (ind + 2) x ++ dumpsArr (ind + 2) xs ++
      '\n' :: (spaces ind ++ [']']))
  | .obj .nil => [obraceC, cbraceC]
  | .obj (.cons k v xs) =>
    obraceC :: '\n' :: (spaces (ind + 2) ++ encStr k ++ ':' :: ' ' ::
      (dumpsV (ind + 2) v ++ dumpsObj (ind + 2) xs ++ '\n' :: (spaces ind ++ [cbraceC])))

/-- Remaining array items: each is preceded by `",\n"` and the indentation. -/
def dumpsArr (ind : Nat) : JsonArr → List Char
  | .nil => []
  | .cons x xs => ',' :: '\n' :: (spaces ind ++ dumpsV ind x ++ dumpsArr ind xs)

/-- Remaining object members. -/
def dumpsObj (ind : Nat) : JsonObj → List Char
  | .nil => []
  | .cons k v xs =>
    ',' :: '\n' :: (spaces ind ++ encStr k ++ ':' :: ' ' ::
      (dumpsV ind v ++ dumpsObj ind xs))

end

/-- `json.dumps(v, indent=2)` as a string. -/
def dumpsTop (v : Json) : String := String.mk (dumpsV 0 v)

/-- JSON insignificant whitespace. -/
def wsChar (c : Char) : Bool :=
  c = ' ' || c = '\n' || c = '\t' || c = '\r'

/-- Drop leading insignificant whitespace. -/
def skipWs : List Char → List Char
  | [] => []
  | c :: rest => if wsChar c then skipWs rest else c :: rest

/-- Value of one hex digit, either case (as in Python's `\uXXXX` decoding). -/
def hexVal (c : Char) : Option Nat :=
  if '0' ≤ c ∧ c ≤ '9' then some (c.toNat - 48)
  else if 'a' ≤ c ∧ c ≤ 'f' then some (c.toNat - 87)
  else if 'A' ≤ c ∧ c ≤ 'F' then some (c.toNat - 55)
  else none

/-- Prepend a decoded character to a string-body parse result. -/
def consRes (c : Char) (o : Option (List Char × List Char)) :
    Option (List Char × List Char) :=
  o.map (fun p => (c :: p.1, p.2))

/-- Combine four hex digits into a code unit. -/
def hex4 (a b c d : Char) : Option Nat :=
  match hexVal a, hexVal b, hexVal c, hexVal d with
  | some ha, some hb, some hc, some hd =>
    some (((ha * 16 + hb) * 16 + hc) * 16 + hd)
  | _, _, _, _ => none

/-- Decode the low half of a surrogate pair: expects `\uXXXX` with a low
surrogate and combines it with the high surrogate `code`. -/
def decodePair : Nat → List Char → Option (Char × List Char)
  | code, b1 :: b2 :: a :: b :: c :: d :: r3 =>
    if b1 = '\\' ∧ b2 = 'u' then
      match hex4 a b c d with
      | none => none
      | some code2 =>
        if 56320 ≤ code2 ∧ code2 ≤ 57343 then
          some (Char.ofNat (65536 + (code - 55296) * 1024 + (code2 - 56320)), r3)
        else none
    else none
  | _, _ => none

/-- Decode a `\uXXXX` escape (after the `u`): a high surrogate must be
followed by a low-surrogate escape; a lone surrogate is rejected. -/
def decodeU : List Char → Option (Char × List Char)
  | a :: b :: c :: d :: r2 =>
    match hex4 a b c d with
    | none => none
    | some code =>
      if 55296 ≤ code ∧ code ≤ 56319 then decodePair code r2
      else if 56320 ≤ code ∧ code ≤ 57343 then none
      else some (Char.ofNat code, r2)
  | _ => none

/-- Decode one backslash escape (after the backslash): the decoded character
and the remaining input. -/
def decodeEsc : List Char → Option (Char × List Char)
  | [] => none
  | e :: r =>
    if e = '"' then some ('"', r)
    else if e = '\\' then some ('\\', r)
    else if e = '/' then some ('/', r)
    else if e = 'b' then some (Char.ofNat 8, r)
    else if e = 'f' then some (Char.ofNat 12, r)
    else if e = 'n' then some ('\n', r)
    else if e = 'r' then some ('\r', r)
    else if e = 't' then some ('\t', r)
    else if e = 'u' then decodeU r
    else none

/-- Fueled parser for the body of a JSON string literal (after the opening
quote), returning the decoded characters and the input after the closing
quote. Every step consumes at least one input character, so fuel
`length + 1` always suffices. Mirrors Python's strict decoder: raw control
characters are rejected, the named escapes and `\uXXXX` (with surrogate
pairs) are decoded; lone surrogates are rejected (modelling restriction,
see above). -/
def parseStrBody : Nat → List Char → Option (List Char × List Char)
  | 0, _ => none
  | _ + 1, [] => none
  | f + 1, c :: rest =>
    if c = '"' then some ([], rest)
    else if c = '\\' then
      match decodeEsc rest with
      | some (ch, r) => consRes ch (parseStrBody f r)
      | none => none
    else if c.toNat < 32 then none
    else consRes c (parseStrBody f rest)

/-- ASCII decimal digit test (as in the JSON number grammar). -/
def isDigitC (c : Char) : Bool :=
  48 ≤ c.toNat && c.toNat ≤ 57

/-- Leading decimal digits and the rest of the input. -/
def takeDigits : List Char → List Char × List Char
  | [] => ([], [])
  | c :: rest =>
    if isDigitC c then
      let p := takeDigits rest
      (c :: p.1, p.2)
    else ([], c :: rest)

/-- Value of a digit string. -/
def digitsToNat (ds : List Char) : Nat :=
  ds.foldl (fun acc c => acc * 10 + (c.toNat - 48)) 0

/-- Parse a nonempty run of digits as a natural number. -/
def parseNat (cs : List Char) : Option (Nat × List Char) :=
  match takeDigits cs with
  | ([], _) => none
  | (ds, rest) => some (digitsToNat ds, rest)

mutual

/-- Fueled JSON value parser (Python `json.loads` grammar, integers only):
skips leading whitespace, then dispatches on the first character. -/
def parseV : Nat → List Char → Option (Json × List Char)
  | 0, _ => none
  | f + 1, cs =>
    match skipWs cs with
    | [] => none
    | c :: rest =>
      if c = 'n' then
        if leadsList ['u', 'l', 'l'] rest then some (.null, rest.drop 3) else none
      else if c = 't' then
        if leadsList ['r', 'u', 'e'] rest then some (.bool true, rest.drop 3) else none
      else if c = 'f' then
        if leadsList ['a', 'l', 's', 'e'] rest then some (.bool false, rest.drop 4)
        else none
      else if c = '"' then
        match parseStrBody (rest.length + 1) rest with
        | some (s, r) => some (.str (String.mk s), r)
        | none => none
      else if c = '[' then
        match skipWs rest with
        | [] => none
        | d :: r2 =>
          if d = ']' then some (.arr .nil, r2)
          else
            match parseItems f rest with
            | some (xs, r) => some (.arr xs, r)
            | none => none
      else if c = obraceC then
        match skipWs rest with
        | [] => none
        | d :: r2 =>
          if d = cbraceC then some (.obj .nil, r2)
          else
            match parseMembers f rest with
            | some (xs, r) => some (.obj xs, r)
            | none => none
      else if c = '-' then
        match parseNat rest with
        | some (n, r) => some (.num (-(n : Int)), r)
        | none => none
      else if isDigitC c then
        match parseNat (c :: rest) with
        | some (n, r) => some (.num ((n : Int)), r)
        | none => none
      else none

/-- One or more comma-separated array items followed by `]`. -/
def parseItems : Nat → List Char → Option (JsonArr × List Char)
  | 0, _ => none
  | f + 1, cs =>
    match parseV f cs with
    | none => none
    | some (v, r) =>
      match skipWs r with
      | [] => none
      | c :: r2 =>
        if c = ',' then
          match parseItems f r2 with
          | some (xs, r3) => some (.cons v xs, r3)
          | none => none
        else if c = ']' then some (.cons v .nil, r2)
        else none

/-- One or more comma-separated object members followed by the closing brace. -/
def parseMembers : Nat → List Char → Option (JsonObj × List Char)
  | 0, _ => none
  | f + 1, cs =>
    match skipWs cs with
    | [] => none
    | c :: r =>
      if c = '"' then
        match parseStrBody (r.length + 1) r with
        | none => none
        | some (k, r1) =>
          match skipWs r1 with
          | [] => none
          | c2 :: r2 =>
            if c2 = ':' then
              match parseV f r2 with
              | none => none
              | some (v, r3) =>
                match skipWs r3 with
                | [] => none
                | c3 :: r4 =>
                  if c3 = ',' then
                    match parseMembers f r4 with
                    | some (xs, r5) => some (.cons (String.mk k) v xs, r5)
                    | none => none
                  else if c3 = cbraceC then some (.cons (String.mk k) v .nil, r4)
                  else none
            else none
      else none

end

/-- `json.loads`: parse one JSON value and require only whitespace after it.
The fuel `2 * length + 2` dominates the parser's recursion depth. -/
def loads (s : String) : Option Json :=
  match parseV (2 * s.data.length + 2) s.data with
  | some (v, r) => if skipWs r = [] then some v else none
  | none => none

/-- The escaped characters of a string body (the literal minus its quotes). -/
def escL (s : List Char) : List Char :=
  (s.map escChar).flatten

/-- Every character is JSON whitespace. -/
def allWs (l : List Char) : Bool := l.all wsChar

/-- The input does not start with a digit (so a preceding number token cannot
absorb it). -/
def headDigitFree : List Char → Bool
  | [] => true
  | c :: _ => !isDigitC c

mutual

/-- Structural size of a JSON value, a lower bound on the parser fuel it
needs; every constructor weighs at least one. -/
def sizeV : Json → Nat
  | .arr xs => 1 + sizeA xs
  | .obj xs => 1 + sizeO xs
  | _ => 1

/-- Structural size of an array tail. -/
def sizeA : JsonArr → Nat
  | .nil => 1
  | .cons x xs => 1 + sizeV x + sizeA xs

/-- Structural size of an object tail. -/
def sizeO : JsonObj → Nat
  | .nil => 1
  | .cons _ v xs => 1 + sizeV v + sizeO xs

end

/-- `sub` occurs contiguously inside `s`. -/
def containsStr (s sub : String) : Prop :=
  ∃ a b, s.data = a ++ sub.data ++ b

/-- `s` is a sign-and-digits numeral with a point followed by exactly `n`
digits: the shape of a fixed-point rendering with `n` decimal places. -/
def hasDecimals (s : String) (n : Nat) : Prop :=
  ∃ intPart ds, s = intPart ++ "." ++ String.mk ds ∧ ds.length = n ∧
    (∀ c ∈ ds, c.isDigit = true) ∧
    (∀ c ∈ intPart.data, c.isDigit = true ∨ c = '-')

/-! ### Report generator -/

/-- Caller-supplied patient attributes (spec data model `PatientInfo`),
interpolated raw into the prompt. -/
structure PatientInfo where
  age : Int
  height : Int
  weight : Int
deriving DecidableEq, Repr

/-- Python `str` of an integer. -/
def intStr (n : Int) : String := String.mk (intChars n)

/-- The digits after the decimal point of Python's fixed-point formatting:
exactly `n` digits, the low `n` decimal digits of the scaled value `m`. -/
def fracDigits (m n : Nat) : List Char :=
  (List.range n).reverse.map (fun i => Nat.digitChar (m / 10 ^ i % 10))

/-- Python `f"{q:.nf}"` on the exact value `q`: scale by `10 ^ n`, round to an
integer, and print sign, integer digits, a point and exactly `n` fractional
digits. (CPython rounds the binary double to even on ties; an exact decimal
tie at the `n`-th place is not representable as a double, so the tie-breaking
choice made here is unobservable on real inputs.) -/
def formatFixed (q : ℚ) (n : Nat) : String :=
  (if q < 0 then "-" else "") ++
    String.mk (natChars ((⌊|q| * (10 : ℚ) ^ n + 1 / 2⌋).toNat / 10 ^ n)) ++
    "." ++ String.mk (fracDigits (⌊|q| * (10 : ℚ) ^ n + 1 / 2⌋).toNat n)

/-- Python `", ".join`. -/
def joinComma : List String → String
  | [] => ""
  | [x] => x
  | x :: y :: tl => x ++ ", " ++ joinComma (y :: tl)

/-- Line 53: `", ".join([f"{k}: {v:.4f}" for k, v in rmse_metrics['3D_RMSE'].items()])`. -/
def positionalLine (m : List Row) : String :=
  joinComma (m.map (fun p => p.1 ++ ": " ++ formatFixed p.2 4))

/-- The f-string template of lines 43-71, byte for byte: a deterministic
function of the patient attributes and the metrics summary. -/
def buildPrompt (p : PatientInfo) (m : MetricsSummary) : String :=
  "\n    You are an AI physiotherapy assistant. Your task is to analyze a patient\x27s movement based on RMSE metrics,\n    patient information, and an overlay skeleton animation. Use logical reasoning and a step-by-step chain-of-thought approach to provide corrective feedback and suggestions.\n\n    **Patient Information:**\n    - Age: " ++
    intStr p.age ++
    " years\n    - Height: " ++
    intStr p.height ++
    " cm\n    - Weight: " ++
    intStr p.weight ++
    " kg\n\n    **3D RMSE for Selected Keypoints:**\n    " ++
    positionalLine m.positional_rmse ++
    "\n\n    **Angle RMSE:**\n    - " ++
    ("Knee Angle RMSE: " ++ formatFixed m.knee_angle_rmse 2 ++ "°") ++
    "\n    - " ++
    ("Hip Abduction Angle RMSE: " ++ formatFixed m.hip_abduction_angle_rmse 2 ++ "°") ++
    "\n\n    **Overlay Skeleton Animation:**  \n    The animation is provided as an image input below.\n\n    **Step-by-Step Analysis:**\n    1. Identify which keypoints have the highest RMSE values and explain their implications.\n    2. Correlate these values with common physiotherapy movement errors.\n    3. Provide explanations for these errors based on biomechanics.\n    4. Suggest specific corrective actions the patient can take.\n    5. Adjust your recommendations based on the patient’s demographics.\n\n    **Feedback Report:**\n    Provide a detailed, structured report using the above reasoning.\n    "

/-- Failure of the decode step: `json.loads` on text that is not valid JSON
(Python `json.JSONDecodeError`, a `ValueError`). -/
inductive GenError where
  | parseError
deriving DecidableEq, Repr

/-- Observable side effects of one generator call, in program order. -/
inductive Effect where
  | uploadFile (content : String) (bucket : String) (key : String)
  | printMsg (msg : String)
deriving DecidableEq, Repr

/-- The dict returned at lines 146-151 (spec data model `ReportArtifact`). -/
structure ReportArtifact where
  prompt : String
  report_dict : Json
  report_json : String
  report_s3_path : String

/-- The characters written to the temporary file at line 138:
`json.dump(physio_feedback, temp_json, indent=2)` serialises the *string*
`physio_feedback` (itself already the serialised report), producing a JSON
string literal. -/
def tempFileContent (report : Json) : String :=
  dumpsTop (Json.str (dumpsTop report))

/-- `generate_physio_report` after the inference call: the endpoint's reply
text is the input `output_text` (the endpoint itself is an external
collaborator). Decode, double-serialise to the temporary file, upload, log,
and package the artifact; a decode failure aborts before any effect. -/
def generate_physio_report (patient_info : PatientInfo)
    (rmse_metrics : MetricsSummary) (gif_s3_url : String)
    (bucket_name report_s3_path : String) (output_text : String) :
    Except GenError ReportArtifact × List Effect :=
  let prompt := buildPrompt patient_info rmse_metrics
  match loads output_text with
  | none => (.error .parseError, [])
  | some report =>
    (.ok ⟨prompt, report, dumpsTop report,
        "s3://" ++ bucket_name ++ "/" ++ report_s3_path⟩,
      [.uploadFile (tempFileContent report) bucket_name report_s3_path,
        .printMsg ("[LLM] Physiotherapy Generated report uploaded to s3://" ++
          bucket_name ++ "/" ++ report_s3_path)])

end PhysioPro

namespace PhysioPro

/-! ### Helper lemmas about the dict model -/

theorem dictInsert_keys_mem (m : List Row) (k : String) (v : ℚ) (a : String) :
    a ∈ (dictInsert m k v).map (fun p => p.1) ↔
      a ∈ m.map (fun p => p.1) ∨ a = k := by
  induction m with
  | nil => simp [dictInsert, eq_comm]
  | cons p tl ih =>
    by_cases hpk : p.1 = k
    · subst hpk
      simp [dictInsert, eq_comm, or_comm, or_assoc]
    · simp only [dictInsert, hpk, if_false, List.map_cons, List.mem_cons, ih]
      tauto

theorem lookupD_cons (p : Row) (m : List Row) (a : String) :
    lookupD (p :: m) a = if p.1 = a then some p.2 else lookupD m a := by
  by_cases h : p.1 = a <;> simp [lookupD, List.find?_cons, h]

theorem lookupD_dictInsert (m : List Row) (k : String) (v : ℚ) (a : String) :
    lookupD (dictInsert m k v) a = if a = k then some v else lookupD m a := by
  induction m with
  | nil =>
    by_cases hak : a = k
    · simp [dictInsert, lookupD_cons, lookupD, hak]
    · have hka : ¬ k = a := fun h => hak h.symm
      simp [dictInsert, lookupD_cons, lookupD, hak, hka]
  | cons p tl ih =>
    by_cases hpk : p.1 = k
    · by_cases hak : a = k
      · subst hak; simp [dictInsert, hpk, lookupD_cons]
      · have hka : ¬ k = a := fun h => hak h.symm
        have hpa : ¬ p.1 = a := fun h => hak (h.symm.trans hpk)
        simp [dictInsert, hpk, lookupD_cons, hka, hpa, hak]
    · simp only [dictInsert, hpk, if_false]
      rw [lookupD_cons, lookupD_cons, ih]
      by_cases hpa : p.1 = a
      · have hak : ¬ a = k := fun h => hpk (hpa.trans h)
        simp [hpa, hak]
      · simp [hpa]

/-! ### Helper lemmas about the positional-RMSE comprehension -/

theorem positionalOf_keys_aux (df : List Row) (acc : List Row) (a : String) :
    a ∈ (df.foldl posStep acc).map (fun p => p.1) ↔
      a ∈ acc.map (fun p => p.1) ∨
        ∃ r ∈ df, r.1 = a ∧ hasSub r.1 angleMarker = false := by
  induction df generalizing acc with
  | nil => simp
  | cons r tl ih =>
    rw [List.foldl_cons, ih]
    by_cases hang : hasSub r.1 angleMarker = true
    · have hstep : posStep acc r = acc := by simp [posStep, hang]
      rw [hstep]
      constructor
      · rintro (h | ⟨r', hmem, h1, h2⟩)
        · exact Or.inl h
        · exact Or.inr ⟨r', List.mem_cons_of_mem _ hmem, h1, h2⟩
      · rintro (h | ⟨r', hmem, h1, h2⟩)
        · exact Or.inl h
        · rcases List.mem_cons.mp hmem with rfl | hmem'
          · rw [hang] at h2; cases h2
          · exact Or.inr ⟨r', hmem', h1, h2⟩
    · have hangf : hasSub r.1 angleMarker = false := by
        cases h : hasSub r.1 angleMarker
        · rfl
        · exact absurd h hang
      have hstep : posStep acc r = dictInsert acc r.1 r.2 := by
        simp [posStep, hangf]
      rw [hstep, dictInsert_keys_mem]
      constructor
      · rintro ((h | h) | ⟨r', hmem, h1, h2⟩)
        · exact Or.inl h
        · exact Or.inr ⟨r, List.mem_cons_self _ _, h.symm, hangf⟩
        · exact Or.inr ⟨r', List.mem_cons_of_mem _ hmem, h1, h2⟩
      · rintro (h | ⟨r', hmem, h1, h2⟩)
        · exact Or.inl (Or.inl h)
        · rcases List.mem_cons.mp hmem with rfl | hmem'
          · exact Or.inl (Or.inr h1.symm)
          · exact Or.inr ⟨r', hmem', h1, h2⟩

theorem positionalOf_keys (df : List Row) (a : String) :
    a ∈ (positionalOf df).map (fun p => p.1) ↔
      ∃ r ∈ df, r.1 = a ∧ hasSub r.1 angleMarker = false := by
  have h := positionalOf_keys_aux df [] a
  simpa [positionalOf] using h

theorem positionalOf_lookup_aux (df acc : List Row) (a : String) :
    lookupD (df.foldl posStep acc) a =
      (lastVal df a).elim (lookupD acc a) some := by
  induction df generalizing acc with
  | nil => simp [lastVal]
  | cons r tl ih =>
    rw [List.foldl_cons, ih]
    by_cases hq : (decide (r.1 = a) && !hasSub r.1 angleMarker) = true
    · have hra : r.1 = a := by
        have h := (Bool.and_eq_true _ _).mp hq
        exact of_decide_eq_true h.1
      have hangf : hasSub r.1 angleMarker = false := by
        have h := (Bool.and_eq_true _ _).mp hq
        simpa using h.2
      have hstep : posStep acc r = dictInsert acc r.1 r.2 := by
        simp [posStep, hangf]
      have hfil : (r :: tl).filter (fun r => decide (r.1 = a) && !hasSub r.1 angleMarker)
          = r :: tl.filter (fun r => decide (r.1 = a) && !hasSub r.1 angleMarker) := by
        simp only [List.filter_cons, hq, if_true]
      cases hl : lastVal tl a with
      | some v =>
        have hne : (tl.filter fun r => decide (r.1 = a) && !hasSub r.1 angleMarker).map
            (fun r => r.2) ≠ [] := by
          intro h0
          rw [lastVal, h0] at hl
          cases hl
        obtain ⟨x, xs, hxs⟩ := List.exists_cons_of_ne_nil hne
        have hl' : (x :: xs).getLast? = some v := by
          unfold lastVal at hl
          rw [hxs] at hl
          exact hl
        have hcons : lastVal (r :: tl) a = some v := by
          unfold lastVal
          rw [hfil, List.map_cons, hxs, List.getLast?_cons_cons]
          exact hl'
        rw [hcons]
        rfl
      | none =>
        have hmap : (tl.filter fun r => decide (r.1 = a) && !hasSub r.1 angleMarker).map
            (fun r => r.2) = [] := by
          unfold lastVal at hl
          exact List.getLast?_eq_none_iff.mp hl
        have hcons : lastVal (r :: tl) a = some r.2 := by
          unfold lastVal
          rw [hfil, List.map_cons, hmap]
          simp
        rw [hcons, hstep]
        show lookupD (dictInsert acc r.1 r.2) a = some r.2
        rw [lookupD_dictInsert, if_pos hra.symm]
    · have hfil : (r :: tl).filter (fun r => decide (r.1 = a) && !hasSub r.1 angleMarker)
          = tl.filter (fun r => decide (r.1 = a) && !hasSub r.1 angleMarker) := by
        simp only [List.filter_cons, if_neg hq]
      have hstep : lookupD (posStep acc r) a = lookupD acc a := by
        unfold posStep
        by_cases hang : hasSub r.1 angleMarker = true
        · rw [if_pos hang]
        · have hangf : hasSub r.1 angleMarker = false := by
            cases h : hasSub r.1 angleMarker
            · rfl
            · exact absurd h hang
          rw [if_neg hang, lookupD_dictInsert, if_neg]
          intro h
          exact hq (by simp [h, hangf])
      have hlast : lastVal (r :: tl) a = lastVal tl a := by
        unfold lastVal
        rw [hfil]
      rw [hstep, hlast]

theorem positionalOf_lookup (df : List Row) (a : String) :
    lookupD (positionalOf df) a = (lastVal df a).elim none some := by
  have h := positionalOf_lookup_aux df [] a
  simpa [positionalOf, lookupD] using h

/-- Inversion of a successful fetch: the summary's parts come from the
comprehension and the two first-match lookups. -/
theorem fetch_ok_inv (df : List Row) (s : MetricsSummary)
    (hs : fetch_rmse_metrics_from_snowflake df = .ok s) :
    s.positional_rmse = positionalOf df ∧
      firstMatch df "KNEE_ANGLE" = some s.knee_angle_rmse ∧
      firstMatch df "HIP_ABDUCTION_ANGLE" = some s.hip_abduction_angle_rmse := by
  unfold fetch_rmse_metrics_from_snowflake at hs
  cases hK : firstMatch df "KNEE_ANGLE" with
  | none => rw [hK] at hs; cases hs
  | some k =>
    cases hH : firstMatch df "HIP_ABDUCTION_ANGLE" with
    | none => rw [hK, hH] at hs; cases hs
    | some h =>
      rw [hK, hH] at hs
      cases hs
      exact ⟨rfl, rfl, rfl⟩

/-! ### Claims about the metrics fetcher -/

/-- C1: for every table with exactly one `KNEE_ANGLE` row and exactly one
`HIP_ABDUCTION_ANGLE` row, the summary's two angle fields equal those rows'
RMSE values exactly; in particular the example table
`[("KNEE_ANGLE", 5.123), ("HIP_ABDUCTION_ANGLE", 3.456), ("LEFT_WRIST", 0.0812)]`
yields positional `\x7b"LEFT_WRIST": 0.0812\x7d`, knee 5.123, hip 3.456. -/
theorem fetch_unique_angle_rows_exact :
    (∀ (df : List Row) (k h : ℚ),
        df.filter (fun r => decide (r.1 = "KNEE_ANGLE")) = [("KNEE_ANGLE", k)] →
        df.filter (fun r => decide (r.1 = "HIP_ABDUCTION_ANGLE")) =
          [("HIP_ABDUCTION_ANGLE", h)] →
        ∃ s, fetch_rmse_metrics_from_snowflake df = .ok s ∧
          s.knee_angle_rmse = k ∧ s.hip_abduction_angle_rmse = h) ∧
      fetch_rmse_metrics_from_snowflake
          [("KNEE_ANGLE", 5.123), ("HIP_ABDUCTION_ANGLE", 3.456), ("LEFT_WRIST", 0.0812)] =
        .ok ⟨[("LEFT_WRIST", 0.0812)], 5.123, 3.456⟩ := by
  constructor
  · intro df k h hk hh
    refine ⟨⟨positionalOf df, k, h⟩, ?_, rfl, rfl⟩
    unfold fetch_rmse_metrics_from_snowflake firstMatch
    rw [hk, hh]
    rfl
  · rfl

/-- Witness for C1 at the spec's example table. -/
theorem fetch_unique_angle_rows_exact_witness :
    ∃ s, fetch_rmse_metrics_from_snowflake
        [("KNEE_ANGLE", 5.123), ("HIP_ABDUCTION_ANGLE", 3.456), ("LEFT_WRIST", 0.0812)] =
          .ok s ∧ s.knee_angle_rmse = 5.123 ∧ s.hip_abduction_angle_rmse = 3.456 :=
  fetch_unique_angle_rows_exact.1
    [("KNEE_ANGLE", 5.123), ("HIP_ABDUCTION_ANGLE", 3.456), ("LEFT_WRIST", 0.0812)]
    5.123 3.456 rfl rfl

/-- C2: in any summary the fetcher returns, a row whose keypoint name contains
the angle marker never appears as a key of `positional_rmse`, and every row
whose name does not contain it does appear. -/
theorem positional_excludes_angle_rows (df : List Row) (s : MetricsSummary)
    (hs : fetch_rmse_metrics_from_snowflake df = .ok s) :
    (∀ r ∈ df, hasSub r.1 angleMarker = true →
        r.1 ∉ s.positional_rmse.map (fun p => p.1)) ∧
      (∀ r ∈ df, hasSub r.1 angleMarker = false →
        r.1 ∈ s.positional_rmse.map (fun p => p.1)) := by
  obtain ⟨hpos, -, -⟩ := fetch_ok_inv df s hs
  rw [hpos]
  constructor
  · intro r hr hang hmem
    rw [positionalOf_keys] at hmem
    rcases hmem with ⟨r', _, h1, h2⟩
    rw [h1, hang] at h2
    cases h2
  · intro r hr hang
    rw [positionalOf_keys]
    exact ⟨r, hr, rfl, hang⟩

/-- Witness for C2 on a concrete table: `KNEE_ANGLE` is excluded from the
positional keys and `LEFT_WRIST` is included. -/
theorem positional_excludes_angle_rows_witness :
    "KNEE_ANGLE" ∉
        (MetricsSummary.mk [("LEFT_WRIST", 3)] 1 2).positional_rmse.map (fun p => p.1) ∧
      "LEFT_WRIST" ∈
        (MetricsSummary.mk [("LEFT_WRIST", 3)] 1 2).positional_rmse.map (fun p => p.1) :=
  ⟨(positional_excludes_angle_rows
      [("KNEE_ANGLE", 1), ("HIP_ABDUCTION_ANGLE", 2), ("LEFT_WRIST", 3)]
      ⟨[("LEFT_WRIST", 3)], 1, 2⟩ rfl).1
        ("KNEE_ANGLE", 1) (List.mem_cons_self _ _) rfl,
    (positional_excludes_angle_rows
      [("KNEE_ANGLE", 1), ("HIP_ABDUCTION_ANGLE", 2), ("LEFT_WRIST", 3)]
      ⟨[("LEFT_WRIST", 3)], 1, 2⟩ rfl).2
        ("LEFT_WRIST", 3)
        (List.mem_cons_of_mem _ (List.mem_cons_of_mem _ (List.mem_cons_self _ _)))
        rfl⟩

/-- C3: a table with no row named exactly `KNEE_ANGLE`, or no row named
exactly `HIP_ABDUCTION_ANGLE`, makes the fetch fail with the LookupError-class
error (Python raises `IndexError`, a `LookupError` subclass, from
`.values[0]`), returning no partial summary. -/
theorem fetch_missing_angle_errors (df : List Row)
    (h : df.filter (fun r => decide (r.1 = "KNEE_ANGLE")) = [] ∨
        df.filter (fun r => decide (r.1 = "HIP_ABDUCTION_ANGLE")) = []) :
    fetch_rmse_metrics_from_snowflake df = .error .lookupError := by
  unfold fetch_rmse_metrics_from_snowflake
  rcases h with h | h
  · have hK : firstMatch df "KNEE_ANGLE" = none := by
      unfold firstMatch
      rw [h]
      rfl
    rw [hK]
  · have hH : firstMatch df "HIP_ABDUCTION_ANGLE" = none := by
      unfold firstMatch
      rw [h]
      rfl
    cases hK : firstMatch df "KNEE_ANGLE" <;> rw [hH]

/-- Witness for C3: a table holding only a `HIP_ABDUCTION_ANGLE` row fails. -/
theorem fetch_missing_angle_errors_witness :
    fetch_rmse_metrics_from_snowflake [("HIP_ABDUCTION_ANGLE", 1)] =
      .error .lookupError :=
  fetch_missing_angle_errors [("HIP_ABDUCTION_ANGLE", 1)] (Or.inl (by decide))

/-- C9: when more than one row matches `KNEE_ANGLE` (resp.
`HIP_ABDUCTION_ANGLE`) exactly, a returned summary carries the RMSE of the
first matching row in table order. -/
theorem fetch_duplicate_angle_first_wins (df : List Row) (s : MetricsSummary)
    (hs : fetch_rmse_metrics_from_snowflake df = .ok s) :
    (∀ (k : ℚ) (rest : List Row),
        df.filter (fun r => decide (r.1 = "KNEE_ANGLE")) = ("KNEE_ANGLE", k) :: rest →
        rest ≠ [] → s.knee_angle_rmse = k) ∧
      (∀ (h : ℚ) (rest : List Row),
        df.filter (fun r => decide (r.1 = "HIP_ABDUCTION_ANGLE")) =
          ("HIP_ABDUCTION_ANGLE", h) :: rest →
        rest ≠ [] → s.hip_abduction_angle_rmse = h) := by
  obtain ⟨-, hK, hH⟩ := fetch_ok_inv df s hs
  constructor
  · intro k rest hfil _
    unfold firstMatch at hK
    rw [hfil] at hK
    simp only [List.head?_cons, Option.map_some'] at hK
    exact (Option.some.injEq _ _ ▸ hK).symm
  · intro h rest hfil _
    unfold firstMatch at hH
    rw [hfil] at hH
    simp only [List.head?_cons, Option.map_some'] at hH
    exact (Option.some.injEq _ _ ▸ hH).symm

/-- Witness for C9 on a table with two `KNEE_ANGLE` rows and two
`HIP_ABDUCTION_ANGLE` rows. -/
theorem fetch_duplicate_angle_first_wins_witness :
    (MetricsSummary.mk [] 1 3).knee_angle_rmse = 1 ∧
      (MetricsSummary.mk [] 1 3).hip_abduction_angle_rmse = 3 :=
  ⟨(fetch_duplicate_angle_first_wins
      [("KNEE_ANGLE", 1), ("KNEE_ANGLE", 2), ("HIP_ABDUCTION_ANGLE", 3),
        ("HIP_ABDUCTION_ANGLE", 4)]
      ⟨[], 1, 3⟩ rfl).1 1 [("KNEE_ANGLE", 2)] rfl (List.cons_ne_nil _ _),
    (fetch_duplicate_angle_first_wins
      [("KNEE_ANGLE", 1), ("KNEE_ANGLE", 2), ("HIP_ABDUCTION_ANGLE", 3),
        ("HIP_ABDUCTION_ANGLE", 4)]
      ⟨[], 1, 3⟩ rfl).2 3 [("HIP_ABDUCTION_ANGLE", 4)] rfl (List.cons_ne_nil _ _)⟩

/-- C10: when two or more non-angle rows share a keypoint name, the
`positional_rmse` dict maps that name to the RMSE of the last such row in
table order — later rows silently overwrite earlier ones, with no error. -/
theorem positional_duplicate_last_wins (df : List Row) (s : MetricsSummary)
    (a : String)
    (hs : fetch_rmse_metrics_from_snowflake df = .ok s)
    (h2 : 2 ≤ (df.filter fun r => decide (r.1 = a) && !hasSub r.1 angleMarker).length) :
    ∃ v, lastVal df a = some v ∧ lookupD s.positional_rmse a = some v := by
  obtain ⟨hpos, -, -⟩ := fetch_ok_inv df s hs
  rw [hpos, positionalOf_lookup]
  cases hl : lastVal df a with
  | none =>
    exfalso
    unfold lastVal at hl
    have hnil := List.getLast?_eq_none_iff.mp hl
    rw [List.map_eq_nil_iff] at hnil
    rw [hnil] at h2
    simp at h2
  | some v => exact ⟨v, rfl, rfl⟩

/-- Witness for C10 on a table with two `LEFT_WRIST` rows: the second value
wins. -/
theorem positional_duplicate_last_wins_witness :
    ∃ v, lastVal
        [("LEFT_WRIST", 1), ("LEFT_WRIST", 2), ("KNEE_ANGLE", 3),
          ("HIP_ABDUCTION_ANGLE", 4)] "LEFT_WRIST" = some v ∧
      lookupD (MetricsSummary.mk [("LEFT_WRIST", 2)] 3 4).positional_rmse
        "LEFT_WRIST" = some v :=
  positional_duplicate_last_wins
    [("LEFT_WRIST", 1), ("LEFT_WRIST", 2), ("KNEE_ANGLE", 3),
      ("HIP_ABDUCTION_ANGLE", 4)]
    ⟨[("LEFT_WRIST", 2)], 3, 4⟩ "LEFT_WRIST" rfl (by decide)

/-! ### Claim C4: connection lifecycle -/

/-- C4 counterexample: when the query execution itself fails, the error
propagates while the connection opened by the call is left unclosed —
`conn.close()` at line 19 sits after `pd.read_sql` with no try/finally. -/
theorem fetch_query_failure_leaves_conn_open :
    (fetch_run (.error .queryFailed)).connClosed = false ∧
      (fetch_run (.error .queryFailed)).result = .error .connectivity :=
  ⟨rfl, rfl⟩

/-- C4 amended: the connection is closed before control returns on every exit
path on which the query execution succeeds (normal return and lookup
failures); when the query itself fails, the error propagates with the
connection left open. -/
theorem fetch_conn_closed_iff_query_succeeded :
    (∀ df, (fetch_run (.ok df)).connClosed = true) ∧
      (∀ e, (fetch_run (.error e)).connClosed = false) := by
  constructor
  · intro df
    cases h : fetch_rmse_metrics_from_snowflake df <;> simp [fetch_run, h]
  · intro e
    rfl

/-! ### Character, whitespace and digit lemmas -/

theorem mk_data (s : String) : String.mk s.data = s := by
  cases s
  rfl

theorem char_scalar (c : Char) :
    c.toNat < 55296 ∨ (57343 < c.toNat ∧ c.toNat < 1114112) := by
  rcases c.valid with h | ⟨h1, h2⟩
  · left
    exact h
  · right
    exact ⟨h1, h2⟩

theorem skipWs_nonws {c : Char} (h : wsChar c = false) (cs : List Char) :
    skipWs (c :: cs) = c :: cs := by
  simp [skipWs, h]

theorem skipWs_ws_append {pre : List Char} (h : allWs pre = true) (cs : List Char) :
    skipWs (pre ++ cs) = skipWs cs := by
  induction pre with
  | nil => rfl
  | cons c pre ih =>
    have hc : wsChar c = true :=
      (List.all_eq_true.mp h) c (List.mem_cons_self _ _)
    have hpre : allWs pre = true := by
      rw [allWs, List.all_eq_true]
      exact fun x hx => (List.all_eq_true.mp h) x (List.mem_cons_of_mem _ hx)
    rw [List.cons_append]
    simp [skipWs, hc, ih hpre]

theorem allWs_spaces (n : Nat) : allWs (spaces n) = true := by
  rw [allWs, List.all_eq_true]
  intro c hc
  rw [spaces] at hc
  rw [List.eq_of_mem_replicate hc]
  rfl

theorem parseV_ws {pre : List Char} (h : allWs pre = true) (f : Nat)
    (cs : List Char) : parseV f (pre ++ cs) = parseV f cs := by
  cases f with
  | zero => rfl
  | succ g =>
    simp only [parseV]
    rw [skipWs_ws_append h]

theorem hexVal_hexDigitChar : ∀ n < 16, hexVal (hexDigitChar n) = some n := by
  decide

theorem digitChar_toNat : ∀ d < 10, (Nat.digitChar d).toNat = 48 + d := by
  decide

theorem digitChar_isDigitC : ∀ d < 10, isDigitC (Nat.digitChar d) = true := by
  decide

theorem digitChar_isDigit : ∀ d < 10, (Nat.digitChar d).isDigit = true := by
  decide

theorem isDigitC_toNat {c : Char} (h : isDigitC c = true) :
    48 ≤ c.toNat ∧ c.toNat ≤ 57 := by
  rw [isDigitC, Bool.and_eq_true, decide_eq_true_eq, decide_eq_true_eq] at h
  exact h

/-! ### Decimal rendering and parsing -/

theorem natCharsCore_append (n : Nat) :
    ∀ acc, natCharsCore n acc = natCharsCore n [] ++ acc := by
  induction n using Nat.strong_induction_on with
  | _ n ih =>
    intro acc
    by_cases h : n = 0
    · subst h
      rw [natCharsCore, dif_pos rfl]
      conv_rhs => rw [natCharsCore, dif_pos rfl]
      rfl
    · have h10 : n / 10 < n := Nat.div_lt_self (Nat.pos_of_ne_zero h) (by decide)
      rw [natCharsCore, dif_neg h]
      conv_rhs => rw [natCharsCore, dif_neg h]
      rw [ih _ h10 (Nat.digitChar (n % 10) :: acc), ih _ h10 [Nat.digitChar (n % 10)]]
      simp

theorem natCharsCore_digits (n : Nat) :
    ∀ acc, (∀ c ∈ acc, isDigitC c = true) →
      ∀ c ∈ natCharsCore n acc, isDigitC c = true := by
  induction n using Nat.strong_induction_on with
  | _ n ih =>
    intro acc hacc c hc
    by_cases h : n = 0
    · rw [natCharsCore, dif_pos h] at hc
      exact hacc c hc
    · rw [natCharsCore, dif_neg h] at hc
      refine ih _ (Nat.div_lt_self (Nat.pos_of_ne_zero h) (by decide)) _
        (fun x hx => ?_) c hc
      rcases List.mem_cons.mp hx with rfl | hx
      · exact digitChar_isDigitC _ (Nat.mod_lt _ (by decide))
      · exact hacc x hx

theorem natChars_digits (n : Nat) : ∀ c ∈ natChars n, isDigitC c = true := by
  rw [natChars]
  by_cases h : n = 0
  · rw [if_pos h]
    intro c hc
    rw [List.mem_singleton.mp hc]
    decide
  · rw [if_neg h]
    exact natCharsCore_digits n [] (by simp)

theorem natChars_ne_nil (n : Nat) : natChars n ≠ [] := by
  rw [natChars]
  by_cases h : n = 0
  · rw [if_pos h]
    simp
  · rw [if_neg h, natCharsCore, dif_neg h, natCharsCore_append]
    simp

theorem digitsToNat_go (ds : List Char) :
    ∀ a : Nat, ds.foldl (fun acc c => acc * 10 + (c.toNat - 48)) a =
      a * 10 ^ ds.length + digitsToNat ds := by
  induction ds with
  | nil =>
    intro a
    simp [digitsToNat]
  | cons c ds ih =>
    intro a
    rw [digitsToNat, List.foldl_cons, List.foldl_cons, ih, ih (0 * 10 + (c.toNat - 48)),
      List.length_cons]
    ring

theorem digitsToNat_core (n : Nat) : n ≠ 0 → digitsToNat (natCharsCore n []) = n := by
  induction n using Nat.strong_induction_on with
  | _ n ih =>
    intro h
    have h10 : n / 10 < n := Nat.div_lt_self (Nat.pos_of_ne_zero h) (by decide)
    have hmod : n % 10 < 10 := Nat.mod_lt _ (by decide)
    rw [natCharsCore, dif_neg h, natCharsCore_append]
    rw [digitsToNat, List.foldl_append]
    by_cases hq : n / 10 = 0
    · rw [hq, natCharsCore, dif_pos rfl]
      show (0 : Nat) * 10 + ((Nat.digitChar (n % 10)).toNat - 48) = n
      rw [digitChar_toNat _ hmod]
      omega
    · have := ih _ h10 hq
      rw [digitsToNat] at this
      rw [this]
      show n / 10 * 10 + ((Nat.digitChar (n % 10)).toNat - 48) = n
      rw [digitChar_toNat _ hmod]
      omega

theorem digitsToNat_natChars (n : Nat) : digitsToNat (natChars n) = n := by
  by_cases h : n = 0
  · subst h
    decide
  · rw [natChars, if_neg h]
    exact digitsToNat_core n h

theorem takeDigits_append {ds rest : List Char}
    (hds : ∀ c ∈ ds, isDigitC c = true) (hrest : headDigitFree rest = true) :
    takeDigits (ds ++ rest) = (ds, rest) := by
  induction ds with
  | nil =>
    rw [List.nil_append]
    cases rest with
    | nil => rfl
    | cons c r =>
      rw [headDigitFree, Bool.not_eq_true'] at hrest
      simp [takeDigits, hrest]
  | cons d ds ih =>
    rw [List.cons_append]
    simp only [takeDigits, if_pos (hds d (List.mem_cons_self _ _)),
      ih (fun c hc => hds c (List.mem_cons_of_mem _ hc))]

theorem parseNat_natChars (n : Nat) {rest : List Char}
    (hrest : headDigitFree rest = true) :
    parseNat (natChars n ++ rest) = some (n, rest) := by
  rw [parseNat, takeDigits_append (natChars_digits n) hrest]
  obtain ⟨c, cs, hn⟩ := List.exists_cons_of_ne_nil (natChars_ne_nil n)
  rw [hn]
  show some (digitsToNat (c :: cs), rest) = some (n, rest)
  rw [← hn, digitsToNat_natChars]

/-! ### String-literal escaping roundtrip -/

theorem escL_cons (c : Char) (t : List Char) :
    escL (c :: t) = escChar c ++ escL t := by
  simp [escL]

theorem escChar_ne_nil (c : Char) : escChar c ≠ [] := by
  rw [escChar]
  split_ifs <;> simp

theorem escL_len (s : List Char) : s.length ≤ (escL s).length := by
  induction s with
  | nil => simp [escL]
  | cons c t ih =>
    rw [escL_cons, List.length_append, List.length_cons]
    have h1 : 1 ≤ (escChar c).length := by
      rcases hn : escChar c with _ | ⟨x, xs⟩
      · exact absurd hn (escChar_ne_nil c)
      · simp
    omega


theorem hex4_toHex4 (v : Nat) (h : v < 65536) :
    hex4 (hexDigitChar (v / 4096 % 16)) (hexDigitChar (v / 256 % 16))
      (hexDigitChar (v / 16 % 16)) (hexDigitChar (v % 16)) = some v := by
  rw [hex4, hexVal_hexDigitChar _ (Nat.mod_lt _ (by decide)),
    hexVal_hexDigitChar _ (Nat.mod_lt _ (by decide)),
    hexVal_hexDigitChar _ (Nat.mod_lt _ (by decide)),
    hexVal_hexDigitChar _ (Nat.mod_lt _ (by decide))]
  show some _ = some v
  congr 1
  omega

theorem decodeU_single (v : Nat) (h9 : v < 65536)
    (hns : ¬ (55296 ≤ v ∧ v ≤ 57343)) (X : List Char) :
    decodeU (toHex4 v ++ X) = some (Char.ofNat v, X) := by
  show decodeU (hexDigitChar (v / 4096 % 16) :: hexDigitChar (v / 256 % 16) ::
    hexDigitChar (v / 16 % 16) :: hexDigitChar (v % 16) :: X) = _
  rw [decodeU, hex4_toHex4 v h9]
  show (if 55296 ≤ v ∧ v ≤ 56319 then decodePair v X
    else if 56320 ≤ v ∧ v ≤ 57343 then none
    else some (Char.ofNat v, X)) = _
  rw [if_neg (by omega), if_neg (by omega)]

set_option maxRecDepth 4000 in
theorem decodeU_pair (v : Nat) (hge : 65536 ≤ v) (hlt : v < 1114112)
    (X : List Char) :
    decodeU (toHex4 (55296 + (v - 65536) / 1024) ++
      '\\' :: 'u' :: (toHex4 (56320 + (v - 65536) % 1024) ++ X)) =
      some (Char.ofNat v, X) := by
  have hmod : (v - 65536) % 1024 < 1024 :=
    Nat.mod_lt _ (by decide)
  have hdiv : (v - 65536) / 1024 < 1024 := by omega
  show decodeU (hexDigitChar ((55296 + (v - 65536) / 1024) / 4096 % 16) ::
    hexDigitChar ((55296 + (v - 65536) / 1024) / 256 % 16) ::
    hexDigitChar ((55296 + (v - 65536) / 1024) / 16 % 16) ::
    hexDigitChar ((55296 + (v - 65536) / 1024) % 16) ::
    ('\\' :: 'u' :: (hexDigitChar ((56320 + (v - 65536) % 1024) / 4096 % 16) ::
      hexDigitChar ((56320 + (v - 65536) % 1024) / 256 % 16) ::
      hexDigitChar ((56320 + (v - 65536) % 1024) / 16 % 16) ::
      hexDigitChar ((56320 + (v - 65536) % 1024) % 16) :: X))) = _
  rw [decodeU, hex4_toHex4 _ (by omega)]
  show (if 55296 ≤ 55296 + (v - 65536) / 1024 ∧
      55296 + (v - 65536) / 1024 ≤ 56319 then
    decodePair (55296 + (v - 65536) / 1024)
      ('\\' :: 'u' :: (hexDigitChar ((56320 + (v - 65536) % 1024) / 4096 % 16) ::
        hexDigitChar ((56320 + (v - 65536) % 1024) / 256 % 16) ::
        hexDigitChar ((56320 + (v - 65536) % 1024) / 16 % 16) ::
        hexDigitChar ((56320 + (v - 65536) % 1024) % 16) :: X))
    else if 56320 ≤ 55296 + (v - 65536) / 1024 ∧
      55296 + (v - 65536) / 1024 ≤ 57343 then none
    else some (Char.ofNat (55296 + (v - 65536) / 1024), _)) = _
  rw [if_pos (by omega)]
  rw [decodePair, if_pos ⟨rfl, rfl⟩, hex4_toHex4 _ (by omega)]
  show (if 56320 ≤ 56320 + (v - 65536) % 1024 ∧
      56320 + (v - 65536) % 1024 ≤ 57343 then
    some (Char.ofNat (65536 + (55296 + (v - 65536) / 1024 - 55296) * 1024 +
      (56320 + (v - 65536) % 1024 - 56320)), X)
    else none) = _
  rw [if_pos (by omega)]
  have harith : 65536 + (55296 + (v - 65536) / 1024 - 55296) * 1024 +
      (56320 + (v - 65536) % 1024 - 56320) = v := by omega
  rw [harith]

theorem parseStrBody_esc_step {f : Nat} {rest1 : List Char} {ch : Char}
    {t rest : List Char}
    (hd : decodeEsc rest1 = some (ch, escL t ++ '"' :: rest))
    (ihr : parseStrBody f (escL t ++ '"' :: rest) = some (t, rest)) :
    parseStrBody (f + 1) ('\\' :: rest1) = some (ch :: t, rest) := by
  rw [parseStrBody, if_neg (by decide), if_pos rfl, hd]
  show consRes ch (parseStrBody f (escL t ++ '"' :: rest)) = _
  rw [ihr]
  rfl

theorem parseStrBody_escL (s : List Char) :
    ∀ (f : Nat) (rest : List Char), s.length < f →
      parseStrBody f (escL s ++ '"' :: rest) = some (s, rest) := by
  induction s with
  | nil =>
    intro f rest hf
    match f, hf with
    | f + 1, _ =>
      show parseStrBody (f + 1) ('"' :: rest) = some ([], rest)
      rw [parseStrBody, if_pos rfl]
  | cons c t ih =>
    intro f rest hf
    match f, hf with
    | f + 1, hf =>
      have hft : t.length < f := by
        rw [List.length_cons] at hf
        omega
      have ihr := ih f rest hft
      rw [escL_cons, List.append_assoc]
      by_cases h1 : c = '"'
      · have hesc : escChar c = ['\\', '"'] := by rw [escChar, if_pos h1]
        rw [hesc, h1]
        exact parseStrBody_esc_step rfl ihr
      · by_cases h2 : c = '\\'
        · have hesc : escChar c = ['\\', '\\'] := by
            rw [escChar, if_neg h1, if_pos h2]
          rw [hesc, h2]
          exact parseStrBody_esc_step rfl ihr
        · by_cases h3 : c = '\n'
          · have hesc : escChar c = ['\\', 'n'] := by
              rw [escChar, if_neg h1, if_neg h2, if_pos h3]
            rw [hesc, h3]
            exact parseStrBody_esc_step rfl ihr
          · by_cases h4 : c = '\t'
            · have hesc : escChar c = ['\\', 't'] := by
                rw [escChar, if_neg h1, if_neg h2, if_neg h3, if_pos h4]
              rw [hesc, h4]
              exact parseStrBody_esc_step rfl ihr
            · by_cases h5 : c = '\r'
              · have hesc : escChar c = ['\\', 'r'] := by
                  rw [escChar, if_neg h1, if_neg h2, if_neg h3, if_neg h4,
                    if_pos h5]
                rw [hesc, h5]
                exact parseStrBody_esc_step rfl ihr
              · by_cases h6 : c.toNat = 8
                · have hesc : escChar c = ['\\', 'b'] := by
                    rw [escChar, if_neg h1, if_neg h2, if_neg h3, if_neg h4,
                      if_neg h5, if_pos h6]
                  rw [hesc]
                  have hc : c = Char.ofNat 8 := by rw [← h6, Char.ofNat_toNat]
                  rw [hc]
                  exact parseStrBody_esc_step rfl ihr
                · by_cases h7 : c.toNat = 12
                  · have hesc : escChar c = ['\\', 'f'] := by
                      rw [escChar, if_neg h1, if_neg h2, if_neg h3, if_neg h4,
                        if_neg h5, if_neg h6, if_pos h7]
                    rw [hesc]
                    have hc : c = Char.ofNat 12 := by rw [← h7, Char.ofNat_toNat]
                    rw [hc]
                    exact parseStrBody_esc_step rfl ihr
                  · by_cases h8 : 32 ≤ c.toNat ∧ c.toNat ≤ 126
                    · have hesc : escChar c = [c] := by
                        rw [escChar, if_neg h1, if_neg h2, if_neg h3, if_neg h4,
                          if_neg h5, if_neg h6, if_neg h7, if_pos h8]
                      rw [hesc]
                      show parseStrBody (f + 1) (c :: (escL t ++ '"' :: rest)) = _
                      rw [parseStrBody, if_neg h1, if_neg h2,
                        if_neg (show ¬ c.toNat < 32 by omega)]
                      show consRes c (parseStrBody f (escL t ++ '"' :: rest)) = _
                      rw [ihr]
                      rfl
                    · by_cases h9 : c.toNat < 65536
                      · have hesc : escChar c = '\\' :: 'u' :: toHex4 c.toNat := by
                          rw [escChar, if_neg h1, if_neg h2, if_neg h3, if_neg h4,
                            if_neg h5, if_neg h6, if_neg h7, if_neg h8, if_pos h9]
                        rw [hesc]
                        have hval := char_scalar c
                        have hdU : decodeEsc ('u' :: (toHex4 c.toNat ++
                            (escL t ++ '"' :: rest))) =
                            some (c, escL t ++ '"' :: rest) := by
                          have h0 : decodeEsc ('u' :: (toHex4 c.toNat ++
                              (escL t ++ '"' :: rest))) =
                              decodeU (toHex4 c.toNat ++ (escL t ++ '"' :: rest)) := by
                            rw [decodeEsc]
                            rw [if_neg (by decide), if_neg (by decide),
                              if_neg (by decide), if_neg (by decide),
                              if_neg (by decide), if_neg (by decide),
                              if_neg (by decide), if_neg (by decide), if_pos rfl]
                          rw [h0, decodeU_single c.toNat h9 (by omega),
                            Char.ofNat_toNat]
                        show parseStrBody (f + 1) ('\\' :: 'u' ::
                          (toHex4 c.toNat ++ (escL t ++ '"' :: rest))) = _
                        exact parseStrBody_esc_step hdU ihr
                      · have hesc : escChar c =
                            ('\\' :: 'u' :: toHex4 (55296 + (c.toNat - 65536) / 1024)) ++
                              ('\\' :: 'u' ::
                                toHex4 (56320 + (c.toNat - 65536) % 1024)) := by
                          rw [escChar, if_neg h1, if_neg h2, if_neg h3, if_neg h4,
                            if_neg h5, if_neg h6, if_neg h7, if_neg h8, if_neg h9]
                        rw [hesc]
                        have hval := char_scalar c
                        have hge : 65536 ≤ c.toNat := by omega
                        have hlt : c.toNat < 1114112 := by omega
                        have hdU : decodeEsc ('u' ::
                            (toHex4 (55296 + (c.toNat - 65536) / 1024) ++
                              ('\\' :: 'u' ::
                                (toHex4 (56320 + (c.toNat - 65536) % 1024) ++
                                  (escL t ++ '"' :: rest))))) =
                            some (c, escL t ++ '"' :: rest) := by
                          have h0 : decodeEsc ('u' ::
                              (toHex4 (55296 + (c.toNat - 65536) / 1024) ++
                                ('\\' :: 'u' ::
                                  (toHex4 (56320 + (c.toNat - 65536) % 1024) ++
                                    (escL t ++ '"' :: rest))))) =
                              decodeU (toHex4 (55296 + (c.toNat - 65536) / 1024) ++
                                ('\\' :: 'u' ::
                                  (toHex4 (56320 + (c.toNat - 65536) % 1024) ++
                                    (escL t ++ '"' :: rest)))) := by
                            rw [decodeEsc]
                            rw [if_neg (by decide), if_neg (by decide),
                              if_neg (by decide), if_neg (by decide),
                              if_neg (by decide), if_neg (by decide),
                              if_neg (by decide), if_neg (by decide), if_pos rfl]
                          rw [h0, decodeU_pair c.toNat hge hlt, Char.ofNat_toNat]
                        have hshape :
                            (('\\' :: 'u' :: toHex4 (55296 + (c.toNat - 65536) / 1024)) ++
                              ('\\' :: 'u' ::
                                toHex4 (56320 + (c.toNat - 65536) % 1024))) ++
                              (escL t ++ '"' :: rest) =
                            '\\' :: 'u' ::
                              (toHex4 (55296 + (c.toNat - 65536) / 1024) ++
                                ('\\' :: 'u' ::
                                  (toHex4 (56320 + (c.toNat - 65536) % 1024) ++
                                    (escL t ++ '"' :: rest)))) := by
                          simp [List.cons_append, List.append_assoc]
                        rw [hshape]
                        exact parseStrBody_esc_step hdU ihr


/-! ### Heads of rendered values and parser fuel -/

theorem skipWs_cons_ws {c : Char} (h : wsChar c = true) (cs : List Char) :
    skipWs (c :: cs) = skipWs cs := by
  simp [skipWs, h]

theorem natChars_head (n : Nat) :
    ∃ c cs, natChars n = c :: cs ∧ isDigitC c = true := by
  obtain ⟨c, cs, h⟩ := List.exists_cons_of_ne_nil (natChars_ne_nil n)
  exact ⟨c, cs, h, natChars_digits n c (h ▸ List.mem_cons_self c cs)⟩

theorem digit_not_ws {c : Char} (h : isDigitC c = true) : wsChar c = false := by
  have ht := isDigitC_toNat h
  cases hw : wsChar c
  · rfl
  · have hc : c = ' ' ∨ c = '\n' ∨ c = '\t' ∨ c = '\r' := by
      simpa [wsChar, or_assoc] using hw
    rcases hc with rfl | rfl | rfl | rfl <;> exact absurd ht (by decide)

theorem digit_guards {c : Char} (h : isDigitC c = true) :
    ¬ c = 'n' ∧ ¬ c = 't' ∧ ¬ c = 'f' ∧ ¬ c = '"' ∧ ¬ c = '[' ∧
      ¬ c = obraceC ∧ ¬ c = '-' ∧ ¬ c = ']' := by
  have ht := isDigitC_toNat h
  refine ⟨?_, ?_, ?_, ?_, ?_, ?_, ?_, ?_⟩ <;>
    (intro he; rw [he] at ht; exact absurd ht (by decide))

theorem dumpsV_head (ind : Nat) (v : Json) :
    ∃ c cs, dumpsV ind v = c :: cs ∧ wsChar c = false ∧ ¬ c = ']' := by
  cases v with
  | null => exact ⟨'n', _, rfl, by decide, by decide⟩
  | bool b =>
    cases b
    · exact ⟨'f', _, rfl, by decide, by decide⟩
    · exact ⟨'t', _, rfl, by decide, by decide⟩
  | num n =>
    cases n with
    | ofNat m =>
      obtain ⟨c, cs, hm, hdig⟩ := natChars_head m
      refine ⟨c, cs, ?_, digit_not_ws hdig, (digit_guards hdig).2.2.2.2.2.2.2⟩
      show intChars (Int.ofNat m) = c :: cs
      rw [intChars, hm]
    | negSucc m =>
      exact ⟨'-', _, rfl, by decide, by decide⟩
  | str s => exact ⟨'"', _, rfl, by decide, by decide⟩
  | arr xs =>
    cases xs
    · exact ⟨'[', _, rfl, by decide, by decide⟩
    · exact ⟨'[', _, rfl, by decide, by decide⟩
  | obj xs =>
    cases xs
    · exact ⟨obraceC, _, rfl, by decide, by decide⟩
    · exact ⟨obraceC, _, rfl, by decide, by decide⟩

theorem headDigitFree_arrTail (ind : Nat) (xs : JsonArr) (Z : List Char) :
    headDigitFree (dumpsArr ind xs ++ '\n' :: Z) = true := by
  cases xs with
  | nil =>
    rw [dumpsArr, List.nil_append, headDigitFree]
    decide
  | cons y ys =>
    rw [dumpsArr, List.cons_append, headDigitFree]
    decide

theorem headDigitFree_objTail (ind : Nat) (xs : JsonObj) (Z : List Char) :
    headDigitFree (dumpsObj ind xs ++ '\n' :: Z) = true := by
  cases xs with
  | nil =>
    rw [dumpsObj, List.nil_append, headDigitFree]
    decide
  | cons k v ys =>
    rw [dumpsObj, List.cons_append, headDigitFree]
    decide

theorem sizeV_pos (v : Json) : 1 ≤ sizeV v := by
  cases v <;> simp [sizeV]

theorem sizeA_pos (xs : JsonArr) : 1 ≤ sizeA xs := by
  cases xs <;> simp [sizeA] <;> omega

theorem sizeO_pos (xs : JsonObj) : 1 ≤ sizeO xs := by
  cases xs <;> simp [sizeO] <;> omega

theorem allWs_nl_spaces (n : Nat) : allWs ('\n' :: spaces n) = true := by
  rw [allWs, List.all_cons]
  have h := allWs_spaces n
  rw [allWs] at h
  rw [h]
  rfl



/-! ### Parsing rendered atoms -/

theorem parseV_dumps_null (f ind : Nat) (rest : List Char) :
    parseV (f + 1) (dumpsV ind Json.null ++ rest) = some (Json.null, rest) := by
  show parseV (f + 1) ('n' :: 'u' :: 'l' :: 'l' :: rest) = _
  rw [parseV, skipWs_nonws (by decide)]
  simp [leadsList]

theorem parseV_dumps_true (f ind : Nat) (rest : List Char) :
    parseV (f + 1) (dumpsV ind (Json.bool true) ++ rest) =
      some (Json.bool true, rest) := by
  show parseV (f + 1) ('t' :: 'r' :: 'u' :: 'e' :: rest) = _
  rw [parseV, skipWs_nonws (by decide)]
  simp [leadsList]

theorem parseV_dumps_false (f ind : Nat) (rest : List Char) :
    parseV (f + 1) (dumpsV ind (Json.bool false) ++ rest) =
      some (Json.bool false, rest) := by
  show parseV (f + 1) ('f' :: 'a' :: 'l' :: 's' :: 'e' :: rest) = _
  rw [parseV, skipWs_nonws (by decide)]
  simp [leadsList]

theorem parseV_dumps_str (f ind : Nat) (s : String) (rest : List Char) :
    parseV (f + 1) (dumpsV ind (Json.str s) ++ rest) =
      some (Json.str s, rest) := by
  have hshape : dumpsV ind (Json.str s) ++ rest =
      '"' :: (escL s.data ++ '"' :: rest) := by
    show encStr s ++ rest = _
    rw [encStr]
    simp [escL, List.append_assoc, List.cons_append]
  rw [hshape, parseV, skipWs_nonws (by decide)]
  have hlen : s.data.length < (escL s.data ++ '"' :: rest).length + 1 := by
    have := escL_len s.data
    rw [List.length_append]
    omega
  have hp := parseStrBody_escL s.data
    ((escL s.data).length + (rest.length + 1) + 1) rest
    (by have := escL_len s.data; omega)
  simp [hp, mk_data]

theorem parseV_dumps_num (f ind : Nat) (n : Int) (rest : List Char)
    (hrest : headDigitFree rest = true) :
    parseV (f + 1) (dumpsV ind (Json.num n) ++ rest) =
      some (Json.num n, rest) := by
  cases n with
  | ofNat m =>
    obtain ⟨c, cs, hm, hdig⟩ := natChars_head m
    have hshape : dumpsV ind (Json.num (Int.ofNat m)) ++ rest =
        c :: (cs ++ rest) := by
      show intChars (Int.ofNat m) ++ rest = _
      rw [intChars, hm, List.cons_append]
    rw [hshape, parseV, skipWs_nonws (digit_not_ws hdig)]
    obtain ⟨g1, g2, g3, g4, g5, g6, g7, -⟩ := digit_guards hdig
    have hpn : parseNat (c :: (cs ++ rest)) = some (m, rest) := by
      rw [show c :: (cs ++ rest) = natChars m ++ rest by
        rw [hm, List.cons_append]]
      exact parseNat_natChars m hrest
    simp [g1, g2, g3, g4, g5, g6, g7, hdig, hpn]
  | negSucc m =>
    have hshape : dumpsV ind (Json.num (Int.negSucc m)) ++ rest =
        '-' :: (natChars (m + 1) ++ rest) := by
      show intChars (Int.negSucc m) ++ rest = _
      rw [intChars, List.cons_append]
    rw [hshape, parseV, skipWs_nonws (by decide)]
    have hpn := parseNat_natChars (m + 1) hrest
    simp [hpn, obraceC]
    rw [Int.negSucc_eq]
    ring

theorem parseV_dumps_arrnil (f ind : Nat) (rest : List Char) :
    parseV (f + 1) (dumpsV ind (Json.arr JsonArr.nil) ++ rest) =
      some (Json.arr JsonArr.nil, rest) := by
  show parseV (f + 1) ('[' :: ']' :: rest) = _
  rw [parseV, skipWs_nonws (by decide)]
  simp [skipWs, wsChar]

theorem parseV_dumps_objnil (f ind : Nat) (rest : List Char) :
    parseV (f + 1) (dumpsV ind (Json.obj JsonObj.nil) ++ rest) =
      some (Json.obj JsonObj.nil, rest) := by
  show parseV (f + 1) (obraceC :: cbraceC :: rest) = _
  rw [parseV, skipWs_nonws (by decide)]
  simp [skipWs, wsChar, obraceC, cbraceC]



/-! ### The dumps/loads roundtrip -/

theorem encStr_append (k : String) (X : List Char) :
    encStr k ++ X = '"' :: (escL k.data ++ '"' :: X) := by
  rw [encStr]
  simp [escL, List.append_assoc, List.cons_append]

theorem parseStrBody_escL_len (s : List Char) (f : Nat) (rest : List Char)
    (h : (escL s ++ '"' :: rest).length ≤ f) :
    parseStrBody f (escL s ++ '"' :: rest) = some (s, rest) :=
  parseStrBody_escL s f rest (by
    have := escL_len s
    rw [List.length_append, List.length_cons] at h
    omega)

theorem parse_dumps (N : Nat) :
    (∀ v : Json, sizeV v ≤ N → ∀ (f ind : Nat) (rest : List Char),
      sizeV v < f → headDigitFree rest = true →
      parseV f (dumpsV ind v ++ rest) = some (v, rest)) ∧
    (∀ (x : Json) (xs : JsonArr), sizeA (JsonArr.cons x xs) ≤ N →
      ∀ (f ind ind2 : Nat) (rest pre : List Char),
      sizeA (JsonArr.cons x xs) < f → allWs pre = true →
      parseItems f (pre ++ (dumpsV ind2 x ++ (dumpsArr ind2 xs ++
        '\n' :: (spaces ind ++ ']' :: rest)))) =
        some (JsonArr.cons x xs, rest)) ∧
    (∀ (k : String) (v : Json) (xs : JsonObj), sizeO (JsonObj.cons k v xs) ≤ N →
      ∀ (f ind ind2 : Nat) (rest pre : List Char),
      sizeO (JsonObj.cons k v xs) < f → allWs pre = true →
      parseMembers f (pre ++ (encStr k ++ ':' :: ' ' :: (dumpsV ind2 v ++
        (dumpsObj ind2 xs ++ '\n' :: (spaces ind ++ cbraceC :: rest))))) =
        some (JsonObj.cons k v xs, rest)) := by
  induction N using Nat.strong_induction_on with
  | _ N ih =>
    refine ⟨?_, ?_, ?_⟩
    · intro v hN f ind rest hf hrest
      match f, hf with
      | f + 1, hf =>
        cases v with
        | null => exact parseV_dumps_null f ind rest
        | bool b =>
          cases b
          · exact parseV_dumps_false f ind rest
          · exact parseV_dumps_true f ind rest
        | num n => exact parseV_dumps_num f ind n rest hrest
        | str s => exact parseV_dumps_str f ind s rest
        | arr xs =>
          cases xs with
          | nil => exact parseV_dumps_arrnil f ind rest
          | cons x xs =>
            have hszV : sizeV (Json.arr (JsonArr.cons x xs)) =
                1 + sizeA (JsonArr.cons x xs) := rfl
            have hsz : sizeA (JsonArr.cons x xs) < N := by omega
            have hfuel : sizeA (JsonArr.cons x xs) < f := by omega
            have hPA := (ih _ hsz).2.1 x xs (le_refl _) f ind (ind + 2) rest
              ('\n' :: spaces (ind + 2)) hfuel (allWs_nl_spaces _)
            have hshape : dumpsV ind (Json.arr (JsonArr.cons x xs)) ++ rest =
                '[' :: ('\n' :: spaces (ind + 2) ++ (dumpsV (ind + 2) x ++
                  (dumpsArr (ind + 2) xs ++
                    '\n' :: (spaces ind ++ ']' :: rest)))) := by
              show ('[' :: '\n' :: (spaces (ind + 2) ++ dumpsV (ind + 2) x ++
                dumpsArr (ind + 2) xs ++ '\n' :: (spaces ind ++ [']']))) ++
                  rest = _
              simp [List.append_assoc, List.cons_append]
            rw [hshape, parseV, skipWs_nonws (by decide)]
            obtain ⟨hc, hcs, hx, hws, hbr⟩ := dumpsV_head (ind + 2) x
            have hskip : skipWs ('\n' :: spaces (ind + 2) ++
                (dumpsV (ind + 2) x ++ (dumpsArr (ind + 2) xs ++
                  '\n' :: (spaces ind ++ ']' :: rest)))) =
                hc :: (hcs ++ (dumpsArr (ind + 2) xs ++
                  '\n' :: (spaces ind ++ ']' :: rest))) := by
              rw [skipWs_ws_append (allWs_nl_spaces _), hx, List.cons_append,
                skipWs_nonws hws]
            rw [List.cons_append] at hskip hPA
            simp [hskip, hbr, hPA]
        | obj xs =>
          cases xs with
          | nil => exact parseV_dumps_objnil f ind rest
          | cons k v xs =>
            have hszV : sizeV (Json.obj (JsonObj.cons k v xs)) =
                1 + sizeO (JsonObj.cons k v xs) := rfl
            have hsz : sizeO (JsonObj.cons k v xs) < N := by omega
            have hfuel : sizeO (JsonObj.cons k v xs) < f := by omega
            have hPO := (ih _ hsz).2.2 k v xs (le_refl _) f ind (ind + 2) rest
              ('\n' :: spaces (ind + 2)) hfuel (allWs_nl_spaces _)
            have hshape : dumpsV ind (Json.obj (JsonObj.cons k v xs)) ++ rest =
                obraceC :: ('\n' :: spaces (ind + 2) ++ (encStr k ++
                  ':' :: ' ' :: (dumpsV (ind + 2) v ++
                    (dumpsObj (ind + 2) xs ++
                      '\n' :: (spaces ind ++ cbraceC :: rest))))) := by
              show (obraceC :: '\n' :: (spaces (ind + 2) ++ encStr k ++
                ':' :: ' ' :: (dumpsV (ind + 2) v ++ dumpsObj (ind + 2) xs ++
                  '\n' :: (spaces ind ++ [cbraceC])))) ++ rest = _
              simp [List.append_assoc, List.cons_append]
            rw [hshape, parseV, skipWs_nonws (by decide)]
            have hskip : skipWs ('\n' :: spaces (ind + 2) ++ (encStr k ++
                ':' :: ' ' :: (dumpsV (ind + 2) v ++ (dumpsObj (ind + 2) xs ++
                  '\n' :: (spaces ind ++ cbraceC :: rest))))) =
                '"' :: (escL k.data ++ '"' :: (':' :: ' ' ::
                  (dumpsV (ind + 2) v ++ (dumpsObj (ind + 2) xs ++
                    '\n' :: (spaces ind ++ cbraceC :: rest))))) := by
              rw [skipWs_ws_append (allWs_nl_spaces _), encStr_append,
                skipWs_nonws (by decide)]
            rw [List.cons_append] at hskip hPO
            have hqb : ¬ ('"' : Char) = cbraceC := by decide
            simp [hskip, obraceC, hPO, hqb]
    · intro x xs hN f ind ind2 rest pre hf hpre
      match f, hf with
      | f + 1, hf =>
        have hszA : sizeA (JsonArr.cons x xs) = 1 + sizeV x + sizeA xs := rfl
        have hposxs := sizeA_pos xs
        have hposx := sizeV_pos x
        rw [parseItems]
        have hszx : sizeV x < N := by omega
        have hfx : sizeV x < f := by omega
        have hhd : headDigitFree (dumpsArr ind2 xs ++
            '\n' :: (spaces ind ++ ']' :: rest)) = true :=
          headDigitFree_arrTail ind2 xs _
        have hv : parseV f (pre ++ (dumpsV ind2 x ++ (dumpsArr ind2 xs ++
            '\n' :: (spaces ind ++ ']' :: rest)))) =
            some (x, dumpsArr ind2 xs ++ '\n' :: (spaces ind ++ ']' :: rest)) := by
          rw [parseV_ws hpre]
          exact (ih _ hszx).1 x (le_refl _) f ind2 _ hfx hhd
        cases xs with
        | nil =>
          have hskip : skipWs (dumpsArr ind2 JsonArr.nil ++
              '\n' :: (spaces ind ++ ']' :: rest)) = ']' :: rest := by
            show skipWs ([] ++ '\n' :: (spaces ind ++ ']' :: rest)) = _
            rw [List.nil_append, skipWs_cons_ws (by decide),
              skipWs_ws_append (allWs_spaces _), skipWs_nonws (by decide)]
          simp [hv, hskip]
        | cons y ys =>
          have hszA2 : sizeA (JsonArr.cons x (JsonArr.cons y ys)) =
              1 + sizeV x + sizeA (JsonArr.cons y ys) := rfl
          have hszy : sizeA (JsonArr.cons y ys) < N := by omega
          have hfy : sizeA (JsonArr.cons y ys) < f := by omega
          have hPA := (ih _ hszy).2.1 y ys (le_refl _) f ind ind2 rest
            ('\n' :: spaces ind2) hfy (allWs_nl_spaces _)
          have hshape2 : dumpsArr ind2 (JsonArr.cons y ys) ++
              '\n' :: (spaces ind ++ ']' :: rest) =
              ',' :: ('\n' :: spaces ind2 ++ (dumpsV ind2 y ++
                (dumpsArr ind2 ys ++ '\n' :: (spaces ind ++ ']' :: rest)))) := by
            show (',' :: '\n' :: (spaces ind2 ++ dumpsV ind2 y ++
              dumpsArr ind2 ys)) ++ '\n' :: (spaces ind ++ ']' :: rest) = _
            simp [List.append_assoc, List.cons_append]
          have hskip : skipWs (',' :: ('\n' :: spaces ind2 ++ (dumpsV ind2 y ++
              (dumpsArr ind2 ys ++ '\n' :: (spaces ind ++ ']' :: rest))))) =
              ',' :: ('\n' :: spaces ind2 ++ (dumpsV ind2 y ++
                (dumpsArr ind2 ys ++ '\n' :: (spaces ind ++ ']' :: rest)))) :=
            skipWs_nonws (by decide) _
          rw [List.cons_append] at hshape2 hskip hPA
          rw [hshape2] at hv
          simp [hv, hshape2, hskip, hPA]
    · intro k v xs hN f ind ind2 rest pre hf hpre
      match f, hf with
      | f + 1, hf =>
        have hszO : sizeO (JsonObj.cons k v xs) = 1 + sizeV v + sizeO xs := rfl
        have hposxs := sizeO_pos xs
        have hposv := sizeV_pos v
        rw [parseMembers]
        have hskip0 : skipWs (pre ++ (encStr k ++ ':' :: ' ' ::
            (dumpsV ind2 v ++ (dumpsObj ind2 xs ++
              '\n' :: (spaces ind ++ cbraceC :: rest))))) =
            '"' :: (escL k.data ++ '"' :: (':' :: ' ' ::
              (dumpsV ind2 v ++ (dumpsObj ind2 xs ++
                '\n' :: (spaces ind ++ cbraceC :: rest))))) := by
          rw [skipWs_ws_append hpre, encStr_append, skipWs_nonws (by decide)]
        have hszv : sizeV v < N := by omega
        have hfv : sizeV v < f := by omega
        have hhd : headDigitFree (dumpsObj ind2 xs ++
            '\n' :: (spaces ind ++ cbraceC :: rest)) = true :=
          headDigitFree_objTail ind2 xs _
        have hv : parseV f (' ' :: (dumpsV ind2 v ++ (dumpsObj ind2 xs ++
            '\n' :: (spaces ind ++ cbraceC :: rest)))) =
            some (v, dumpsObj ind2 xs ++
              '\n' :: (spaces ind ++ cbraceC :: rest)) := by
          have h1 : (' ' :: (dumpsV ind2 v ++ (dumpsObj ind2 xs ++
              '\n' :: (spaces ind ++ cbraceC :: rest)))) =
              [' '] ++ (dumpsV ind2 v ++ (dumpsObj ind2 xs ++
                '\n' :: (spaces ind ++ cbraceC :: rest))) := rfl
          rw [h1, parseV_ws (by decide)]
          exact (ih _ hszv).1 v (le_refl _) f ind2 _ hfv hhd
        cases xs with
        | nil =>
          have hskip : skipWs (dumpsObj ind2 JsonObj.nil ++
              '\n' :: (spaces ind ++ cbraceC :: rest)) = cbraceC :: rest := by
            show skipWs ([] ++ '\n' :: (spaces ind ++ cbraceC :: rest)) = _
            rw [List.nil_append, skipWs_cons_ws (by decide),
              skipWs_ws_append (allWs_spaces _), skipWs_nonws (by decide)]
          have hne : ¬ cbraceC = ',' := by decide
          have hskipsp : skipWs (spaces ind ++ cbraceC :: rest) = cbraceC :: rest := by
            rw [skipWs_ws_append (allWs_spaces _), skipWs_nonws (by decide)]
          simp (disch := ((try simp [List.length_append]); try omega))
            [hskip0, hv, hskip, mk_data, hne, parseStrBody_escL_len, skipWs,
              wsChar, hskipsp]
        | cons k2 v2 ys =>
          have hszO2 : sizeO (JsonObj.cons k v (JsonObj.cons k2 v2 ys)) =
              1 + sizeV v + sizeO (JsonObj.cons k2 v2 ys) := rfl
          have hszy : sizeO (JsonObj.cons k2 v2 ys) < N := by omega
          have hfy : sizeO (JsonObj.cons k2 v2 ys) < f := by omega
          have hPO := (ih _ hszy).2.2 k2 v2 ys (le_refl _) f ind ind2 rest
            ('\n' :: spaces ind2) hfy (allWs_nl_spaces _)
          have hshape2 : dumpsObj ind2 (JsonObj.cons k2 v2 ys) ++
              '\n' :: (spaces ind ++ cbraceC :: rest) =
              ',' :: ('\n' :: spaces ind2 ++ (encStr k2 ++ ':' :: ' ' ::
                (dumpsV ind2 v2 ++ (dumpsObj ind2 ys ++
                  '\n' :: (spaces ind ++ cbraceC :: rest))))) := by
            show (',' :: '\n' :: (spaces ind2 ++ encStr k2 ++ ':' :: ' ' ::
              (dumpsV ind2 v2 ++ dumpsObj ind2 ys))) ++
                '\n' :: (spaces ind ++ cbraceC :: rest) = _
            simp [List.append_assoc, List.cons_append]
          have hskip : skipWs (',' :: ('\n' :: spaces ind2 ++ (encStr k2 ++
              ':' :: ' ' :: (dumpsV ind2 v2 ++ (dumpsObj ind2 ys ++
                '\n' :: (spaces ind ++ cbraceC :: rest)))))) =
              ',' :: ('\n' :: spaces ind2 ++ (encStr k2 ++ ':' :: ' ' ::
                (dumpsV ind2 v2 ++ (dumpsObj ind2 ys ++
                  '\n' :: (spaces ind ++ cbraceC :: rest))))) :=
            skipWs_nonws (by decide) _
          rw [List.cons_append] at hshape2 hskip hPO
          rw [hshape2] at hv hskip0
          simp (disch := ((try simp [List.length_append]); try omega))
            [hskip0, hv, hshape2, hskip, hPO, mk_data, parseStrBody_escL_len,
              skipWs, wsChar]



theorem intChars_ne_nil (n : Int) : intChars n ≠ [] := by
  cases n with
  | ofNat m => exact natChars_ne_nil m
  | negSucc m => simp [intChars]

theorem size_le_len (N : Nat) :
    (∀ v : Json, sizeV v ≤ N → ∀ ind, sizeV v ≤ (dumpsV ind v).length) ∧
    (∀ xs : JsonArr, sizeA xs ≤ N → ∀ ind,
      sizeA xs ≤ (dumpsArr ind xs).length + 1) ∧
    (∀ xs : JsonObj, sizeO xs ≤ N → ∀ ind,
      sizeO xs ≤ (dumpsObj ind xs).length + 1) := by
  induction N using Nat.strong_induction_on with
  | _ N ih =>
    refine ⟨?_, ?_, ?_⟩
    · intro v hN ind
      cases v with
      | null => simp [sizeV, dumpsV]
      | bool b => cases b <;> simp [sizeV, dumpsV]
      | num n =>
        have h := intChars_ne_nil n
        have : 0 < (intChars n).length := List.length_pos.mpr h
        show sizeV (Json.num n) ≤ (intChars n).length
        rw [show sizeV (Json.num n) = 1 from rfl]
        omega
      | str s =>
        show sizeV (Json.str s) ≤ (encStr s).length
        have hp : 0 < (encStr s).length := List.length_pos.mpr (by simp [encStr])
        rw [show sizeV (Json.str s) = 1 from rfl]
        omega
      | arr xs =>
        cases xs with
        | nil => simp [sizeV, sizeA, dumpsV]
        | cons x xs =>
          have hx : sizeV x < N := by
            have h1 := sizeV_pos x
            have h2 := sizeA_pos xs
            have : sizeV (Json.arr (JsonArr.cons x xs)) =
              1 + (1 + sizeV x + sizeA xs) := rfl
            omega
          have hxs : sizeA xs < N := by
            have h1 := sizeV_pos x
            have h2 := sizeA_pos xs
            have : sizeV (Json.arr (JsonArr.cons x xs)) =
              1 + (1 + sizeV x + sizeA xs) := rfl
            omega
          have h1 := (ih _ hx).1 x (le_refl _) (ind + 2)
          have h2 := (ih _ hxs).2.1 xs (le_refl _) (ind + 2)
          show sizeV (Json.arr (JsonArr.cons x xs)) ≤
            ('[' :: '\n' :: (spaces (ind + 2) ++ dumpsV (ind + 2) x ++
              dumpsArr (ind + 2) xs ++ '\n' :: (spaces ind ++ [']']))).length
          rw [show sizeV (Json.arr (JsonArr.cons x xs)) =
            1 + (1 + sizeV x + sizeA xs) from rfl]
          simp [List.length_append]
          omega
      | obj xs =>
        cases xs with
        | nil => simp [sizeV, sizeO, dumpsV]
        | cons k v xs =>
          have hv : sizeV v < N := by
            have h1 := sizeV_pos v
            have h2 := sizeO_pos xs
            have : sizeV (Json.obj (JsonObj.cons k v xs)) =
              1 + (1 + sizeV v + sizeO xs) := rfl
            omega
          have hxs : sizeO xs < N := by
            have h1 := sizeV_pos v
            have h2 := sizeO_pos xs
            have : sizeV (Json.obj (JsonObj.cons k v xs)) =
              1 + (1 + sizeV v + sizeO xs) := rfl
            omega
          have h1 := (ih _ hv).1 v (le_refl _) (ind + 2)
          have h2 := (ih _ hxs).2.2 xs (le_refl _) (ind + 2)
          show sizeV (Json.obj (JsonObj.cons k v xs)) ≤
            (obraceC :: '\n' :: (spaces (ind + 2) ++ encStr k ++
              ':' :: ' ' :: (dumpsV (ind + 2) v ++ dumpsObj (ind + 2) xs ++
                '\n' :: (spaces ind ++ [cbraceC])))).length
          rw [show sizeV (Json.obj (JsonObj.cons k v xs)) =
            1 + (1 + sizeV v + sizeO xs) from rfl]
          simp [List.length_append]
          omega
    · intro xs hN ind
      cases xs with
      | nil => simp [sizeA, dumpsArr]
      | cons x xs =>
        have hx : sizeV x < N := by
          have h1 := sizeV_pos x
          have h2 := sizeA_pos xs
          have : sizeA (JsonArr.cons x xs) = 1 + sizeV x + sizeA xs := rfl
          omega
        have hxs : sizeA xs < N := by
          have h1 := sizeV_pos x
          have h2 := sizeA_pos xs
          have : sizeA (JsonArr.cons x xs) = 1 + sizeV x + sizeA xs := rfl
          omega
        have h1 := (ih _ hx).1 x (le_refl _) ind
        have h2 := (ih _ hxs).2.1 xs (le_refl _) ind
        show sizeA (JsonArr.cons x xs) ≤
          (',' :: '\n' :: (spaces ind ++ dumpsV ind x ++
            dumpsArr ind xs)).length + 1
        rw [show sizeA (JsonArr.cons x xs) = 1 + sizeV x + sizeA xs from rfl]
        simp [List.length_append]
        omega
    · intro xs hN ind
      cases xs with
      | nil => simp [sizeO, dumpsObj]
      | cons k v xs =>
        have hv : sizeV v < N := by
          have h1 := sizeV_pos v
          have h2 := sizeO_pos xs
          have : sizeO (JsonObj.cons k v xs) = 1 + sizeV v + sizeO xs := rfl
          omega
        have hxs : sizeO xs < N := by
          have h1 := sizeV_pos v
          have h2 := sizeO_pos xs
          have : sizeO (JsonObj.cons k v xs) = 1 + sizeV v + sizeO xs := rfl
          omega
        have h1 := (ih _ hv).1 v (le_refl _) ind
        have h2 := (ih _ hxs).2.2 xs (le_refl _) ind
        show sizeO (JsonObj.cons k v xs) ≤
          (',' :: '\n' :: (spaces ind ++ encStr k ++ ':' :: ' ' ::
            (dumpsV ind v ++ dumpsObj ind xs))).length + 1
        rw [show sizeO (JsonObj.cons k v xs) = 1 + sizeV v + sizeO xs from rfl]
        simp [List.length_append]
        omega

/-- `json.loads` inverts `json.dumps(..., indent=2)` on every JSON value. -/
theorem loads_dumpsTop (v : Json) : loads (dumpsTop v) = some v := by
  rw [loads]
  show (match parseV (2 * (dumpsV 0 v).length + 2) (dumpsV 0 v) with
    | some (w, r) => if skipWs r = [] then some w else none
    | none => none) = some v
  have hsize := (size_le_len (sizeV v)).1 v (le_refl _) 0
  have hfuel : sizeV v < 2 * (dumpsV 0 v).length + 2 := by omega
  have h := (parse_dumps (sizeV v)).1 v (le_refl _)
    (2 * (dumpsV 0 v).length + 2) 0 [] hfuel rfl
  rw [List.append_nil] at h
  rw [h]
  rfl



/-! ### Prompt text lemmas -/

theorem containsStr_self (s : String) : containsStr s s :=
  ⟨[], [], by simp⟩

theorem containsStr_appL {t sub : String} (s : String) (h : containsStr t sub) :
    containsStr (s ++ t) sub := by
  obtain ⟨a, b, hab⟩ := h
  exact ⟨s.data ++ a, b, by simp [String.data_append, hab, List.append_assoc]⟩

theorem containsStr_appR {s sub : String} (t : String) (h : containsStr s sub) :
    containsStr (s ++ t) sub := by
  obtain ⟨a, b, hab⟩ := h
  exact ⟨a, b ++ t.data, by simp [String.data_append, hab, List.append_assoc]⟩

theorem joinComma_contains {x : String} :
    ∀ l : List String, x ∈ l → containsStr (joinComma l) x := by
  intro l
  induction l with
  | nil => intro h; cases h
  | cons y tl ih =>
    intro hmem
    cases tl with
    | nil =>
      rw [List.mem_singleton.mp hmem]
      exact containsStr_self _
    | cons z tl2 =>
      rcases List.mem_cons.mp hmem with rfl | hmem2
      · show containsStr (x ++ ", " ++ joinComma (z :: tl2)) x
        exact containsStr_appR _ (containsStr_appR _ (containsStr_self x))
      · show containsStr (y ++ ", " ++ joinComma (z :: tl2)) x
        exact containsStr_appL _ (ih hmem2)

theorem formatFixed_decimals (q : ℚ) (n : Nat) : hasDecimals (formatFixed q n) n := by
  refine ⟨(if q < 0 then "-" else "") ++
      String.mk (natChars ((⌊|q| * (10 : ℚ) ^ n + 1 / 2⌋).toNat / 10 ^ n)),
    fracDigits (⌊|q| * (10 : ℚ) ^ n + 1 / 2⌋).toNat n, rfl, ?_, ?_, ?_⟩
  · rw [fracDigits]
    simp
  · intro c hc
    rw [fracDigits] at hc
    obtain ⟨i, -, hi⟩ := List.mem_map.mp hc
    rw [← hi]
    exact digitChar_isDigitC _ (Nat.mod_lt _ (by decide))
  · intro c hc
    rw [String.data_append] at hc
    rcases List.mem_append.mp hc with hc | hc
    · right
      by_cases hq : q < 0
      · rw [if_pos hq] at hc
        simpa using hc
      · rw [if_neg hq] at hc
        cases hc
    · left
      exact natChars_digits _ c hc

theorem prompt_contains_positional (p : PatientInfo) (m : MetricsSummary)
    (k : String) (v : ℚ) (hkv : (k, v) ∈ m.positional_rmse) :
    containsStr (buildPrompt p m) (k ++ ": " ++ formatFixed v 4) := by
  have hmem : (k ++ ": " ++ formatFixed v 4) ∈
      m.positional_rmse.map (fun r => r.1 ++ ": " ++ formatFixed r.2 4) :=
    List.mem_map_of_mem _ hkv
  have hjc : containsStr (positionalLine m.positional_rmse)
      (k ++ ": " ++ formatFixed v 4) := joinComma_contains _ hmem
  exact containsStr_appR _ (containsStr_appR _ (containsStr_appR _
    (containsStr_appR _ (containsStr_appR _ (containsStr_appL _ hjc)))))

theorem prompt_contains_knee (p : PatientInfo) (m : MetricsSummary) :
    containsStr (buildPrompt p m)
      ("Knee Angle RMSE: " ++ formatFixed m.knee_angle_rmse 2 ++ "°") := by
  exact containsStr_appR _ (containsStr_appR _ (containsStr_appR _
    (containsStr_appL _ (containsStr_self _))))

theorem prompt_contains_hip (p : PatientInfo) (m : MetricsSummary) :
    containsStr (buildPrompt p m)
      ("Hip Abduction Angle RMSE: " ++
        formatFixed m.hip_abduction_angle_rmse 2 ++ "°") := by
  exact containsStr_appR _ (containsStr_appL _ (containsStr_self _))



/-! ### Claims about the report generator -/

/-- C6: when the endpoint's output text is not valid JSON, the call fails with
the ParseError-class error and no effect — in particular no upload — is
performed. -/
theorem generate_malformed_parse_error_no_upload (p : PatientInfo)
    (m : MetricsSummary) (gif bucket path out : String)
    (h : loads out = none) :
    generate_physio_report p m gif bucket path out = (.error .parseError, []) ∧
      ∀ c b k2, Effect.uploadFile c b k2 ∉
        (generate_physio_report p m gif bucket path out).2 := by
  have hgen : generate_physio_report p m gif bucket path out =
      (.error .parseError, []) := by
    unfold generate_physio_report
    rw [h]
  exact ⟨hgen, fun c b k2 hmem => by rw [hgen] at hmem; cases hmem⟩

/-- Witness for C6: `"not json"` is rejected and nothing is uploaded. -/
theorem generate_malformed_parse_error_no_upload_witness :
    generate_physio_report ⟨30, 170, 70⟩ ⟨[], 1, 2⟩ "g" "b" "p" "not json" =
        (.error .parseError, []) ∧
      ∀ c b k2, Effect.uploadFile c b k2 ∉
        (generate_physio_report ⟨30, 170, 70⟩ ⟨[], 1, 2⟩ "g" "b" "p"
          "not json").2 :=
  generate_malformed_parse_error_no_upload ⟨30, 170, 70⟩ ⟨[], 1, 2⟩
    "g" "b" "p" "not json" rfl

/-- C8: every successful call returns the original prompt text, the decoded
report object, a `report_json` serialization that parses back to that same
object, and the storage URI `s3://bucket/path`; the uploaded file and the log
line are the two recorded effects. -/
theorem generate_artifact_fields (p : PatientInfo) (m : MetricsSummary)
    (gif bucket path out : String) (r : Json) (h : loads out = some r) :
    generate_physio_report p m gif bucket path out =
      (.ok ⟨buildPrompt p m, r, dumpsTop r, "s3://" ++ bucket ++ "/" ++ path⟩,
        [.uploadFile (tempFileContent r) bucket path,
          .printMsg ("[LLM] Physiotherapy Generated report uploaded to s3://" ++
            bucket ++ "/" ++ path)]) ∧
      loads (dumpsTop r) = some r := by
  constructor
  · unfold generate_physio_report
    rw [h]
  · exact loads_dumpsTop r

/-- Witness for C8: a schema-shaped reply with one step and
`final_report = "OK"`. -/
theorem generate_artifact_fields_witness :
    generate_physio_report ⟨30, 170, 70⟩ ⟨[], 1, 2⟩ "g" "bkt" "pth"
        "\x7b\"steps\": [\x7b\"explanation\": \"e\", \"suggestion\": \"s\"\x7d], \"final_report\": \"OK\"\x7d" =
      (.ok ⟨buildPrompt ⟨30, 170, 70⟩ ⟨[], 1, 2⟩,
          Json.obj (.cons "steps"
            (.arr (.cons (.obj (.cons "explanation" (.str "e")
              (.cons "suggestion" (.str "s") .nil))) .nil))
            (.cons "final_report" (.str "OK") .nil)),
          dumpsTop (Json.obj (.cons "steps"
            (.arr (.cons (.obj (.cons "explanation" (.str "e")
              (.cons "suggestion" (.str "s") .nil))) .nil))
            (.cons "final_report" (.str "OK") .nil))),
          "s3://" ++ "bkt" ++ "/" ++ "pth"⟩,
        [.uploadFile (tempFileContent (Json.obj (.cons "steps"
            (.arr (.cons (.obj (.cons "explanation" (.str "e")
              (.cons "suggestion" (.str "s") .nil))) .nil))
            (.cons "final_report" (.str "OK") .nil)))) "bkt" "pth",
          .printMsg ("[LLM] Physiotherapy Generated report uploaded to s3://" ++
            "bkt" ++ "/" ++ "pth")]) ∧
      loads (dumpsTop (Json.obj (.cons "steps"
        (.arr (.cons (.obj (.cons "explanation" (.str "e")
          (.cons "suggestion" (.str "s") .nil))) .nil))
        (.cons "final_report" (.str "OK") .nil)))) =
      some (Json.obj (.cons "steps"
        (.arr (.cons (.obj (.cons "explanation" (.str "e")
          (.cons "suggestion" (.str "s") .nil))) .nil))
        (.cons "final_report" (.str "OK") .nil))) :=
  generate_artifact_fields ⟨30, 170, 70⟩ ⟨[], 1, 2⟩ "g" "bkt" "pth" _ _ rfl

/-- C5 counterexample: on a successful run the temporary file holds the JSON
encoding of the serialization *string* (line 138 serialises the already
serialised `physio_feedback`), so parsing the persisted text yields that
string, not the decoded report object. -/
theorem generate_persisted_parse_counterexample :
    loads "\x7b\"steps\": [], \"final_report\": \"OK\"\x7d" =
        some (Json.obj (.cons "steps" (.arr .nil)
          (.cons "final_report" (.str "OK") .nil))) ∧
      (generate_physio_report ⟨30, 170, 70⟩ ⟨[], 1, 2⟩ "g" "b" "p"
          "\x7b\"steps\": [], \"final_report\": \"OK\"\x7d").2 =
        [.uploadFile (tempFileContent (Json.obj (.cons "steps" (.arr .nil)
            (.cons "final_report" (.str "OK") .nil)))) "b" "p",
          .printMsg ("[LLM] Physiotherapy Generated report uploaded to s3://" ++
            "b" ++ "/" ++ "p")] ∧
      loads (tempFileContent (Json.obj (.cons "steps" (.arr .nil)
          (.cons "final_report" (.str "OK") .nil)))) =
        some (Json.str (dumpsTop (Json.obj (.cons "steps" (.arr .nil)
          (.cons "final_report" (.str "OK") .nil))))) ∧
      ¬ loads (tempFileContent (Json.obj (.cons "steps" (.arr .nil)
          (.cons "final_report" (.str "OK") .nil)))) =
        some (Json.obj (.cons "steps" (.arr .nil)
          (.cons "final_report" (.str "OK") .nil))) :=
  ⟨rfl, rfl, loads_dumpsTop _, by
    intro h
    have hs := loads_dumpsTop (Json.str (dumpsTop (Json.obj (.cons "steps"
      (.arr .nil) (.cons "final_report" (.str "OK") .nil)))))
    have hcontra := hs.symm.trans h
    exact Json.noConfusion (Option.some.inj hcontra)⟩

/-- C5 amended: parsing the persisted text yields the report's JSON
serialization (a JSON string value), and parsing that serialization yields
the decoded report object. -/
theorem generate_persisted_double_encoded (p : PatientInfo)
    (m : MetricsSummary) (gif bucket path out : String)
    (art : ReportArtifact) (effs : List Effect) (content b k2 : String)
    (hgen : generate_physio_report p m gif bucket path out = (.ok art, effs))
    (hup : Effect.uploadFile content b k2 ∈ effs) :
    loads content = some (Json.str art.report_json) ∧
      loads art.report_json = some art.report_dict := by
  unfold generate_physio_report at hgen
  cases hl : loads out with
  | none =>
    rw [hl] at hgen
    simp at hgen
  | some r =>
    rw [hl] at hgen
    injection hgen with hA hB
    have hart := Except.ok.inj hA
    rw [← hB] at hup
    rcases List.mem_cons.mp hup with he | hup2
    · injection he with hc hbk
      rw [← hart, hc]
      exact ⟨loads_dumpsTop (Json.str (dumpsTop r)), loads_dumpsTop r⟩
    · rcases List.mem_cons.mp hup2 with he | hup3
      · cases he
      · cases hup3

/-- Witness for the C5 amended claim at a concrete successful run. -/
theorem generate_persisted_double_encoded_witness :
    loads (tempFileContent (Json.obj (.cons "steps" (.arr .nil)
        (.cons "final_report" (.str "OK") .nil)))) =
      some (Json.str (dumpsTop (Json.obj (.cons "steps" (.arr .nil)
        (.cons "final_report" (.str "OK") .nil))))) ∧
    loads (dumpsTop (Json.obj (.cons "steps" (.arr .nil)
        (.cons "final_report" (.str "OK") .nil)))) =
      some (Json.obj (.cons "steps" (.arr .nil)
        (.cons "final_report" (.str "OK") .nil))) :=
  generate_persisted_double_encoded ⟨30, 170, 70⟩ ⟨[], 1, 2⟩ "g" "b" "p"
    "\x7b\"steps\": [], \"final_report\": \"OK\"\x7d" _ _ _ "b" "p" rfl
    (List.mem_cons_self _ _)

/-- C7: the prompt is a deterministic function of the patient attributes and
the metrics summary; every positional RMSE appears formatted to exactly four
decimal places, and each angle RMSE to exactly two decimal places followed by
a degree sign. -/
theorem prompt_deterministic_formatted :
    (∀ (p1 p2 : PatientInfo) (m1 m2 : MetricsSummary), p1 = p2 → m1 = m2 →
      buildPrompt p1 m1 = buildPrompt p2 m2) ∧
    (∀ q : ℚ, hasDecimals (formatFixed q 4) 4 ∧ hasDecimals (formatFixed q 2) 2) ∧
    (∀ (p : PatientInfo) (m : MetricsSummary) (k : String) (v : ℚ),
      (k, v) ∈ m.positional_rmse →
      containsStr (buildPrompt p m) (k ++ ": " ++ formatFixed v 4)) ∧
    (∀ (p : PatientInfo) (m : MetricsSummary),
      containsStr (buildPrompt p m)
        ("Knee Angle RMSE: " ++ formatFixed m.knee_angle_rmse 2 ++ "°") ∧
      containsStr (buildPrompt p m)
        ("Hip Abduction Angle RMSE: " ++
          formatFixed m.hip_abduction_angle_rmse 2 ++ "°")) := by
  refine ⟨?_, ?_, ?_, ?_⟩
  · intro p1 p2 m1 m2 hp hm
    rw [hp, hm]
  · intro q
    exact ⟨formatFixed_decimals q 4, formatFixed_decimals q 2⟩
  · intro p m k v hkv
    exact prompt_contains_positional p m k v hkv
  · intro p m
    exact ⟨prompt_contains_knee p m, prompt_contains_hip p m⟩

/-- Witness for C7 at a concrete patient and summary. -/
theorem prompt_deterministic_formatted_witness :
    buildPrompt ⟨25, 170, 70⟩ ⟨[("LEFT_WRIST", 0.0812)], 5.123, 3.456⟩ =
        buildPrompt ⟨25, 170, 70⟩ ⟨[("LEFT_WRIST", 0.0812)], 5.123, 3.456⟩ ∧
      hasDecimals (formatFixed 0.0812 4) 4 ∧
      containsStr (buildPrompt ⟨25, 170, 70⟩ ⟨[("LEFT_WRIST", 0.0812)], 5.123, 3.456⟩)
        ("LEFT_WRIST" ++ ": " ++ formatFixed 0.0812 4) ∧
      containsStr (buildPrompt ⟨25, 170, 70⟩ ⟨[("LEFT_WRIST", 0.0812)], 5.123, 3.456⟩)
        ("Knee Angle RMSE: " ++ formatFixed 5.123 2 ++ "°") :=
  ⟨prompt_deterministic_formatted.1 _ _ _ _ rfl rfl,
    (prompt_deterministic_formatted.2.1 0.0812).1,
    prompt_deterministic_formatted.2.2.1 ⟨25, 170, 70⟩
      ⟨[("LEFT_WRIST", 0.0812)], 5.123, 3.456⟩ "LEFT_WRIST" 0.0812
      (List.mem_cons_self _ _),
    (prompt_deterministic_formatted.2.2.2 ⟨25, 170, 70⟩
      ⟨[("LEFT_WRIST", 0.0812)], 5.123, 3.456⟩).1⟩


end PhysioPro
